import Mathlib

/-!
Shallow embedding of `src/core/executor.ts` from the ui-state-capture
repository, together with proofs about the claims of its specification.

Modelling conventions, used consistently below:
* The live browser page is modelled by a time-indexed oracle (`Oracle`):
  every awaited interaction with the page (a poll iteration, a
  clickability check, a click, a fill, a wait, a screenshot, a planner
  round trip) advances a logical clock by one tick and observes the
  oracle at the tick at which it starts.  Real-time durations
  (`perSelectorMs`, 100 ms poll pauses, timeouts) are abstracted into
  iteration counts: 1200 ms at a 100 ms poll interval becomes 12 poll
  iterations, 1000 ms becomes 10, 800 ms becomes 8.
* The filesystem is a list of (directory, filename, content) records;
  `fs.writeFileSync` replaces any record with the same directory and
  filename.  Paths always have the shape `outDir/taskId/dir/file` in the
  source, with `outDir` and `taskId` fixed for a run, so only the last
  two components are kept.
* Side effects performed on the page are additionally recorded in an
  event trace so that theorems can speak about which clicks, fills and
  keystrokes actually happened.
* Exceptions are modelled with `Except String`; every `catch` of the
  source becomes a `match` on the `Except` value.  Exception message
  texts that interpolate JSON dumps are abbreviated to their fixed
  prefix.
* In-place mutations of `lastSelectorUsed` that happen between the start
  of an action and a `throw` are not returned from the failing action;
  no code path of the source reads `lastSelectorUsed` between such a
  mutation and the next assignment, so this is observationally faithful.
-/

/-- JS-style string truthiness for optional strings: `undefined`, `null`
and the empty string are falsy. -/
def strTruthy : Option String → Bool
  | some s => s ≠ ""
  | none => false

/-- JS `a || b` on optional strings: keep `a` when it is truthy. -/
def jsOrS (a b : Option String) : Option String :=
  if strTruthy a then a else b

/-- JS `a ?? b` (nullish coalescing) on options. -/
def jsCoalesce (a b : Option String) : Option String :=
  match a with
  | some s => some s
  | none => b

/-- `charsBeginWith p c` holds when the char list `c` starts with `p`. -/
def charsBeginWith : List Char → List Char → Bool
  | [], _ => true
  | _ :: _, [] => false
  | p :: ps, c :: cs => p = c && charsBeginWith ps cs

/-- `charsContains pat cs` holds when `pat` occurs as a contiguous block
inside `cs`. -/
def charsContains (pat : List Char) : List Char → Bool
  | [] => charsBeginWith pat []
  | c :: cs => charsBeginWith pat (c :: cs) || charsContains pat cs

/-- Substring test, mirroring JS `String.prototype.includes`: the empty
pattern is contained in every string. -/
def strContains (s pat : String) : Bool :=
  charsContains pat.data s.data

/-- ASCII lower-casing of a single character, mirroring `toLowerCase()`
on the ASCII strings the executor handles. -/
def lowerChar (c : Char) : Char :=
  if 65 ≤ c.toNat ∧ c.toNat ≤ 90 then Char.ofNat (c.toNat + 32) else c

/-- ASCII lower-casing of a string, mirroring JS `toLowerCase()`. -/
def lowerStr (s : String) : String := String.mk (s.data.map lowerChar)

/-- Drop leading whitespace characters. -/
def dropLeadWs : List Char → List Char
  | [] => []
  | c :: cs => if c.isWhitespace then dropLeadWs cs else c :: cs

/-- Strip whitespace from both ends, mirroring JS `trim()`. -/
def jsTrim (s : String) : String :=
  String.mk (dropLeadWs ((dropLeadWs s.data.reverse).reverse))

/-- Suffix test, mirroring JS `String.prototype.endsWith`. -/
def strEndsWith (s pat : String) : Bool :=
  charsBeginWith pat.data.reverse s.data.reverse

/-- Split a char list at whitespace characters; consecutive separators
produce empty segments (callers filter them away). -/
def splitWsAux : List Char → List Char → List String
  | [], acc => [String.mk acc.reverse]
  | c :: cs, acc =>
    if c.isWhitespace then String.mk acc.reverse :: splitWsAux cs []
    else splitWsAux cs (c :: acc)

/-- Split a string at whitespace, mirroring `split(/\s+/)` up to the empty
segments which callers filter away. -/
def splitWsChar (s : String) : List String := splitWsAux s.data []

/-- Remove every double-quote and single-quote character, mirroring
`replace(/["']/g, "")` in the source. -/
def stripQuotes (s : String) : String :=
  String.mk (s.data.filter (fun c => c ≠ '"' ∧ c ≠ '\''))

/-- Collapse every maximal run of whitespace to a single underscore,
mirroring `replace(/\s+/g, "_")` in the source. -/
def collapseWsAux : List Char → Bool → List Char
  | [], _ => []
  | c :: cs, prevWs =>
    if c.isWhitespace then
      if prevWs then collapseWsAux cs true else '_' :: collapseWsAux cs true
    else c :: collapseWsAux cs false

/-- String version of `collapseWsAux`. -/
def collapseWs (s : String) : String :=
  String.mk (collapseWsAux s.data false)

/-- `String(n).padStart(2, "0")` for natural numbers. -/
def pad2 (n : Nat) : String :=
  if n < 10 then "0" ++ toString n else toString n

/-- Accumulator loop of `setDedup`: keep the first occurrence of each
string, in order. -/
def setDedupAux : List String → List String → List String
  | _, [] => []
  | seen, x :: xs =>
    if x ∈ seen then setDedupAux seen xs
    else x :: setDedupAux (x :: seen) xs

/-- First-occurrence-preserving deduplication, mirroring
`Array.from(new Set(xs))` in the source. -/
def setDedup (l : List String) : List String := setDedupAux [] l

/-! ## JSON values and the recovery-response extractor -/

/-- JSON-like values returned by the plan-generation collaborator. -/
inductive J where
  | null : J
  | jbool : Bool → J
  | jnum : Int → J
  | str : String → J
  | arr : List J → J
  | obj : List (String × J) → J

/-- The reference-like keys recognised by `askPlannerForRecovery`. -/
def refKey (k : String) : Bool :=
  k = "selector" ∨ k = "selector_candidates" ∨ k = "selectors"

/-- Strings harvested from an array value sitting under a reference-like
key: `v.filter(x => typeof x === "string" && x.trim().length > 0)`. -/
def stringsOfArr (xs : List J) : List String :=
  xs.filterMap (fun j =>
    match j with
    | .str s => if jsTrim s ≠ "" then some s else none
    | _ => none)

mutual
/-- `collectFrom` of `askPlannerForRecovery` (executor.ts lines 289-303):
walk arrays and objects; under a reference-like key, harvest the string
elements of an array value (and nothing else, with no recursion into
such a value); recurse into every other object value.  Primitives
contribute nothing. -/
def collect : J → List String
  | .arr xs => collectArr xs
  | .obj fs => collectObj fs
  | _ => []

/-- `collectFrom` mapped over the elements of an array. -/
def collectArr : List J → List String
  | [] => []
  | x :: xs => collect x ++ collectArr xs

/-- `collectFrom` folded over the fields of an object. -/
def collectObj : List (String × J) → List String
  | [] => []
  | (k, v) :: fs =>
    (if refKey k then
      match v with
      | .arr xs => stringsOfArr xs
      | _ => []
    else collect v) ++ collectObj fs
end

/-- The post-processing pipeline of `askPlannerForRecovery` (line 307):
dedup the raw strings, trim, drop empties, cap at 12; `null` when
nothing remains. -/
def extractRecoverySelectors (j : J) : Option (List String) :=
  let uniq := (((setDedup (collect j)).map jsTrim).filter (fun s => s ≠ "")).take 12
  if uniq = [] then none else some uniq

/-! ## The world: clock, filesystem, event trace -/

/-- Metadata document written by `saveCheckpoint` (`meta.json`). -/
structure Meta where
  task_id : String
  checkpoint : String
  action_index : Nat
  action_type : Option String
  selector_used : Option String
  notes : Option String
  url : String
  timestamp : Nat
  planner_confidence : Option Nat
deriving DecidableEq, Repr

/-- Plan actions as consumed by the executor.  All fields are optional,
matching the duck-typed `PlanAction` objects of the source; an object
with no fields at all (`{}`) is `emptyAction` below. -/
structure PlanAction where
  type : Option String := none
  selector : Option (List String) := none
  selector_candidates : Option (List String) := none
  text : Option String := none
  url : Option String := none
  expected_dialog : Option String := none
  wait_for : Option (List String) := none
  fallback_to_keyboard : Option Bool := none
  checkpoint_name : Option String := none
  notes : Option String := none
deriving DecidableEq, Repr

/-- The empty JS object `{}` used for the implicit capture of an empty
checkpoint. -/
def emptyAction : PlanAction := {}

/-- Failure document written on abort (`failure.json`). -/
structure FailureDoc where
  task_id : String
  checkpoint : String
  action_index : Nat
  action : Option PlanAction
  error : String
  url : String
  timestamp : Nat
deriving DecidableEq, Repr

/-- Content of one on-disk file. -/
inductive FC where
  | png : FC
  | meta : Meta → FC
  | failure : FailureDoc → FC
  | marker : FC
  | jpg : FC
  | domSummary : FC
deriving DecidableEq, Repr

/-- One file on disk: directory (checkpoint storage key), filename,
content. -/
structure FileRec where
  dir : String
  fname : String
  content : FC
deriving DecidableEq, Repr

/-- Side effects performed on the page, and the implicit-capture marker
event of the plan runner. -/
inductive Ev where
  | clickAttempt : String → Bool → Ev
  | fillAttempt : String → String → Bool → Ev
  | focusAttempt : String → Bool → Ev
  | typed : String → Bool → Ev
  | gotoEv : String → Bool → Ev
  | shot : String → Bool → Ev
  | plannerCall : Bool → Ev
  | implicitCap : String → Ev
deriving DecidableEq, Repr

/-- Mutable world threaded through the executor. -/
structure World where
  clock : Nat
  fs : List FileRec
  events : List Ev
deriving DecidableEq, Repr

/-- Advance the logical clock by one awaited interaction. -/
def tick (w : World) : World := { w with clock := w.clock + 1 }

/-- Record a side effect in the trace. -/
def emit (e : Ev) (w : World) : World := { w with events := w.events ++ [e] }

/-- `fs.writeFileSync`: replace any file with the same directory and
name, then add the new one. -/
def fsWrite (dir fname : String) (c : FC) (w : World) : World :=
  { w with fs := w.fs.filter (fun r => ¬(r.dir = dir ∧ r.fname = fname)) ++ [⟨dir, fname, c⟩] }

/-- `fs.existsSync` for a file. -/
def fsHas (w : World) (dir fname : String) : Bool :=
  w.fs.any (fun r => r.dir = dir ∧ r.fname = fname)

/-- `readdirSync(dir).some(f => /\.png$/i.test(f))`.  Screenshot files
are the only files the executor writes whose names end in `.png`, and
their generated names are lowercase, so a case-sensitive suffix test is
faithful. -/
def fsHasPng (w : World) (dir : String) : Bool :=
  w.fs.any (fun r => r.dir = dir ∧ strEndsWith r.fname ".png")

/-- Time-indexed page oracle.  Each component answers the question the
corresponding Playwright primitive would ask at a given clock tick. -/
structure Oracle where
  count : Nat → String → Nat
  visible : Nat → String → Bool
  box : Nat → String → Bool
  enabled : Nat → String → Bool
  evalOk : Nat → String → Bool
  tag : Nat → String → String
  role : Nat → String → String
  hasOnClick : Nat → String → Bool
  hasTabIndex : Nat → String → Bool
  contentEditable : Nat → String → Bool
  clickOk : Nat → String → Bool
  fillOk : Nat → String → Bool
  focusOk : Nat → String → Bool
  typeOk : Nat → Bool
  waitSel : Nat → String → Bool
  gotoOk : Nat → String → Bool
  shotOk : Nat → Bool
  url : Nat → String
  planner : Nat → Option J

/-- A static page: the same answers at every tick.  Used to state the
claims whose spec scenarios assume a page that does not change while the
executor looks at it. -/
structure PageView where
  count : String → Nat
  visible : String → Bool
  box : String → Bool
  enabled : String → Bool
  evalOk : String → Bool
  tag : String → String
  role : String → String
  hasOnClick : String → Bool
  hasTabIndex : String → Bool
  contentEditable : String → Bool
  clickOk : String → Bool
  fillOk : String → Bool
  focusOk : String → Bool
  typeOk : Bool
  waitSel : String → Bool
  gotoOk : String → Bool
  shotOk : Bool
  url : String
  planner : Option J

/-- The time-independent oracle of a static page. -/
def constOracle (p : PageView) : Oracle where
  count := fun _ s => p.count s
  visible := fun _ s => p.visible s
  box := fun _ s => p.box s
  enabled := fun _ s => p.enabled s
  evalOk := fun _ s => p.evalOk s
  tag := fun _ s => p.tag s
  role := fun _ s => p.role s
  hasOnClick := fun _ s => p.hasOnClick s
  hasTabIndex := fun _ s => p.hasTabIndex s
  contentEditable := fun _ s => p.contentEditable s
  clickOk := fun _ s => p.clickOk s
  fillOk := fun _ s => p.fillOk s
  focusOk := fun _ s => p.focusOk s
  typeOk := fun _ => p.typeOk
  waitSel := fun _ s => p.waitSel s
  gotoOk := fun _ s => p.gotoOk s
  shotOk := fun _ => p.shotOk
  url := fun _ => p.url
  planner := fun _ => p.planner

/-! ## Page primitives (each consumes one tick) -/

/-- `page.click(sel)`.  The result reports whether the click succeeded;
a `false` outcome models a thrown `TimeoutError`. -/
def opClick (o : Oracle) (s : String) (w : World) : Bool × World :=
  let ok := o.clickOk w.clock s
  (ok, tick (emit (.clickAttempt s ok) w))

/-- `loc.fill(text)` attempt on a selector. -/
def opFill (o : Oracle) (s text : String) (w : World) : Bool × World :=
  let ok := o.fillOk w.clock s
  (ok, tick (emit (.fillAttempt s text ok) w))

/-- `loc.focus()` attempt. -/
def opFocus (o : Oracle) (s : String) (w : World) : Bool × World :=
  let ok := o.focusOk w.clock s
  (ok, tick (emit (.focusAttempt s ok) w))

/-- `page.keyboard.type(text)`: synthetic keystrokes into whatever
element currently has focus. -/
def opType (o : Oracle) (text : String) (w : World) : Bool × World :=
  let ok := o.typeOk w.clock
  (ok, tick (emit (.typed text ok) w))

/-- `page.waitForSelector(sel, del timeout)` outcome. -/
def opWaitSel (o : Oracle) (s : String) (w : World) : Bool × World :=
  (o.waitSel w.clock s, tick w)

/-- `page.goto(url)` outcome. -/
def opGoto (o : Oracle) (u : String) (w : World) : Bool × World :=
  let ok := o.gotoOk w.clock u
  (ok, tick (emit (.gotoEv u ok) w))

/-- `page.screenshot(del fullPage)` outcome for a checkpoint directory. -/
def opShot (o : Oracle) (dir : String) (w : World) : Bool × World :=
  let ok := o.shotOk w.clock
  (ok, tick (emit (.shot dir ok) w))

/-! ## trySelectorsSimple (executor.ts lines 19-58) -/

/-- One poll iteration succeeds when the element exists, is visible and
has a bounding box at the given tick. -/
def matchedAt (o : Oracle) (s : String) (t : Nat) : Bool :=
  o.count t s ≠ 0 ∧ o.visible t s ∧ o.box t s

/-- The static-page version of `matchedAt`. -/
def matchedP (p : PageView) (s : String) : Bool :=
  p.count s ≠ 0 ∧ p.visible s ∧ p.box s

/-- The polling loop of `trySelectorsSimple` for one selector: at each
iteration observe existence, visibility and bounding box; succeed
immediately or pause 100 ms and retry until the per-selector budget
(`fuel` iterations) is spent. -/
def pollLoop (o : Oracle) (s : String) : Nat → World → Bool × World
  | 0, w => (false, w)
  | fuel + 1, w =>
    if matchedAt o s w.clock then (true, tick w)
    else pollLoop o s fuel (tick w)

/-- `trySelectorsSimple`: iterate candidates strictly in list order,
skipping falsy entries, giving each candidate its own polling budget,
and return the first candidate whose poll succeeds. -/
def trySelectorsSimple (o : Oracle) : List String → Nat → World → Option String × World
  | [], _, w => (none, w)
  | s :: rest, fuel, w =>
    if s = "" then trySelectorsSimple o rest fuel w
    else
      match pollLoop o s fuel w with
      | (true, w') => (some s, w')
      | (false, w') => trySelectorsSimple o rest fuel w'

/-! ### Facts about the polling loop -/

theorem tick_clock (w : World) : (tick w).clock = w.clock + 1 := rfl

theorem tick_iterate_clock (w : World) (k : Nat) : (tick^[k] w).clock = w.clock + k := by
  induction k generalizing w with
  | zero => simp
  | succ n ih =>
    rw [Function.iterate_succ_apply, ih, tick_clock]
    omega

theorem matchedAt_const (p : PageView) (s : String) (t : Nat) :
    matchedAt (constOracle p) s t = matchedP p s := rfl

theorem pollLoop_const_pos (p : PageView) (s : String) (fuel : Nat) (w : World)
    (hfuel : 0 < fuel) (h : matchedP p s = true) :
    pollLoop (constOracle p) s fuel w = (true, tick w) := by
  cases fuel with
  | zero => omega
  | succ n =>
    rw [pollLoop, if_pos (show matchedAt (constOracle p) s w.clock = true from h)]

theorem pollLoop_const_neg (p : PageView) (s : String) (fuel : Nat) (w : World)
    (h : matchedP p s = false) :
    pollLoop (constOracle p) s fuel w = (false, tick^[fuel] w) := by
  induction fuel generalizing w with
  | zero => simp [pollLoop]
  | succ n ih =>
    rw [pollLoop,
      if_neg (show ¬ matchedAt (constOracle p) s w.clock = true by
        rw [matchedAt_const, h]; simp)]
    rw [ih (tick w), Function.iterate_succ_apply]

theorem pollLoop_true_iff (o : Oracle) (s : String) (fuel : Nat) (w : World) :
    (pollLoop o s fuel w).1 = true ↔ ∃ k < fuel, matchedAt o s (w.clock + k) = true := by
  induction fuel generalizing w with
  | zero => simp [pollLoop]
  | succ n ih =>
    rw [pollLoop]
    cases hm : matchedAt o s w.clock with
    | true =>
      rw [if_pos rfl]
      constructor
      · intro _; exact ⟨0, Nat.succ_pos n, by simpa using hm⟩
      · intro _; rfl
    | false =>
      rw [if_neg (by simp)]
      rw [ih (tick w)]
      constructor
      · rintro ⟨k, hk, hmm⟩
        refine ⟨k + 1, by omega, ?_⟩
        have : (tick w).clock + k = w.clock + (k + 1) := by
          rw [tick_clock]; omega
        rwa [this] at hmm
      · rintro ⟨k, hk, hmm⟩
        cases k with
        | zero => rw [Nat.add_zero] at hmm; rw [hm] at hmm; exact absurd hmm (by simp)
        | succ m =>
          refine ⟨m, by omega, ?_⟩
          have : (tick w).clock + m = w.clock + (m + 1) := by
            rw [tick_clock]; omega
          rwa [this]

theorem pollLoop_false_world (o : Oracle) (s : String) (fuel : Nat) (w : World)
    (h : (pollLoop o s fuel w).1 = false) :
    (pollLoop o s fuel w).2 = tick^[fuel] w := by
  induction fuel generalizing w with
  | zero => simp [pollLoop]
  | succ n ih =>
    rw [pollLoop] at h ⊢
    cases hm : matchedAt o s w.clock with
    | true => rw [if_pos hm] at h; simp at h
    | false =>
      rw [if_neg (by simp [hm])] at h
      rw [if_neg (by simp)]
      rw [ih (tick w) h, Function.iterate_succ_apply]

/-! ## trySelectorsSimple characterizations -/

/-- Number of truthy (non-empty) candidates in a list; each one is
granted a full polling window. -/
def neCount (l : List String) : Nat := (l.filter (fun s => s ≠ "")).length

theorem trySelectorsSimple_const (p : PageView) (sels : List String) (fuel : Nat)
    (w : World) (hfuel : 0 < fuel) :
    (trySelectorsSimple (constOracle p) sels fuel w).1
      = sels.find? (fun s => decide (s ≠ "") && matchedP p s) := by
  induction sels generalizing w with
  | nil => rfl
  | cons s rest ih =>
    rw [trySelectorsSimple]
    by_cases hs : s = ""
    · subst hs
      rw [if_pos rfl, ih w, List.find?]
      simp
    · rw [if_neg hs]
      cases hm : matchedP p s with
      | true =>
        rw [pollLoop_const_pos p s fuel w hfuel hm, List.find?]
        have : (decide (s ≠ "") && matchedP p s) = true := by simp [hs, hm]
        rw [this]
      | false =>
        rw [pollLoop_const_neg p s fuel w hm, List.find?]
        have : (decide (s ≠ "") && matchedP p s) = false := by simp [hm]
        rw [this, ih]

theorem trySelectorsSimple_head_const (p : PageView) (s : String) (rest : List String)
    (fuel : Nat) (w : World) (hfuel : 0 < fuel) (hs : s ≠ "") (hm : matchedP p s = true) :
    trySelectorsSimple (constOracle p) (s :: rest) fuel w = (some s, tick w) := by
  rw [trySelectorsSimple, if_neg hs, pollLoop_const_pos p s fuel w hfuel hm]

theorem trySelectorsSimple_none_world (o : Oracle) (sels : List String) (fuel : Nat)
    (w : World) (h : (trySelectorsSimple o sels fuel w).1 = none) :
    (trySelectorsSimple o sels fuel w).2 = tick^[fuel * neCount sels] w := by
  induction sels generalizing w with
  | nil => simp [trySelectorsSimple, neCount]
  | cons s rest ih =>
    rw [trySelectorsSimple] at h ⊢
    by_cases hs : s = ""
    · rw [if_pos hs] at h ⊢
      rw [ih w h]
      have : neCount (s :: rest) = neCount rest := by simp [neCount, hs]
      rw [this]
    · rw [if_neg hs] at h ⊢
      rcases hp : pollLoop o s fuel w with ⟨b, wB⟩
      rw [hp] at h
      cases b with
      | true => simp at h
      | false =>
        simp only at h ⊢
        have hwB : wB = tick^[fuel] w := by
          have h2 := pollLoop_false_world o s fuel w (by rw [hp])
          rw [hp] at h2
          exact h2
        subst hwB
        rw [ih _ h]
        have : neCount (s :: rest) = neCount rest + 1 := by
          simp [neCount, hs]
        rw [this, ← Function.iterate_add_apply]
        ring_nf

/-- Every truthy candidate `s` of the list, decomposed as
`pre ++ s :: post`, is polled over the window of `fuel` consecutive
ticks starting after the windows of the truthy candidates before it;
the resolver returns none exactly when every such window fails. -/
theorem trySelectorsSimple_none_iff (o : Oracle) (sels : List String) (fuel : Nat)
    (w : World) :
    (trySelectorsSimple o sels fuel w).1 = none ↔
      ∀ pre s post, sels = pre ++ s :: post → s ≠ "" →
        ∀ k < fuel, matchedAt o s (w.clock + fuel * neCount pre + k) = false := by
  induction sels generalizing w with
  | nil =>
    constructor
    · intro _ pre s post hdec
      exact absurd hdec (by simp)
    · intro _
      rfl
  | cons c rest ih =>
    rw [trySelectorsSimple]
    by_cases hc : c = ""
    · rw [if_pos hc, ih w]
      constructor
      · intro h pre s post hdec hs k hk
        cases pre with
        | nil =>
          simp only [List.nil_append] at hdec
          obtain ⟨h1, _⟩ := List.cons.inj hdec
          exact absurd (h1 ▸ hc) hs
        | cons p0 preB =>
          rw [List.cons_append] at hdec
          obtain ⟨h1, h2⟩ := List.cons.inj hdec
          have := h preB s post h2 hs k hk
          have hne : neCount (p0 :: preB) = neCount preB := by
            simp [neCount, ← h1, hc]
          rw [hne]
          exact this
      · intro h pre s post hdec hs k hk
        have := h (c :: pre) s post (by rw [hdec, List.cons_append]) hs k hk
        have hne : neCount (c :: pre) = neCount pre := by simp [neCount, hc]
        rw [hne] at this
        exact this
    · rw [if_neg hc]
      rcases hp : pollLoop o c fuel w with ⟨b, wB⟩
      cases b with
      | true =>
        simp only
        constructor
        · intro h
          exact absurd h (by simp)
        · intro h
          have htrue : (pollLoop o c fuel w).1 = true := by rw [hp]
          rw [pollLoop_true_iff] at htrue
          obtain ⟨k, hk, hm⟩ := htrue
          have := h [] c rest rfl hc k hk
          rw [show neCount ([] : List String) = 0 from rfl] at this
          simp only [Nat.mul_zero, Nat.add_zero] at this
          rw [hm] at this
          exact absurd this (by simp)
      | false =>
        simp only
        have hwB : wB = tick^[fuel] w := by
          have h2 := pollLoop_false_world o c fuel w (by rw [hp])
          rw [hp] at h2
          exact h2
        subst hwB
        rw [ih]
        have hfail : ∀ k < fuel, matchedAt o c (w.clock + k) = false := by
          intro k hk
          cases hmk : matchedAt o c (w.clock + k) with
          | false => rfl
          | true =>
            have htrue : (pollLoop o c fuel w).1 = true := by
              rw [pollLoop_true_iff]
              exact ⟨k, hk, hmk⟩
            rw [hp] at htrue
            exact absurd htrue (by simp)
        constructor
        · intro h pre s post hdec hs k hk
          cases pre with
          | nil =>
            simp only [List.nil_append] at hdec
            obtain ⟨h1, _⟩ := List.cons.inj hdec
            rw [show neCount ([] : List String) = 0 from rfl]
            simp only [Nat.mul_zero, Nat.add_zero]
            rw [← h1]
            exact hfail k hk
          | cons p0 preB =>
            rw [List.cons_append] at hdec
            obtain ⟨h1, h2⟩ := List.cons.inj hdec
            have := h preB s post h2 hs k hk
            rw [tick_iterate_clock] at this
            have hne : neCount (p0 :: preB) = neCount preB + 1 := by
              simp [neCount, ← h1, hc]
            rw [hne]
            have harith : w.clock + fuel * (neCount preB + 1) + k
                = w.clock + fuel + fuel * neCount preB + k := by ring
            rw [harith]
            exact this
        · intro h pre s post hdec hs k hk
          have := h (c :: pre) s post (by rw [hdec, List.cons_append]) hs k hk
          have hne : neCount (c :: pre) = neCount pre + 1 := by
            simp [neCount, hc]
          rw [hne] at this
          rw [tick_iterate_clock]
          have harith : w.clock + fuel * (neCount pre + 1) + k
              = w.clock + fuel + fuel * neCount pre + k := by ring
          rw [harith] at this
          exact this

/-! ## Interactivity classifier (executor.ts lines 202-271) -/

/-- Case-insensitive interactive-role test:
`/button|link|menuitem|option|tab|checkbox|radio/i.test(role)`. -/
def interactiveRole (role : String) : Bool :=
  ["button", "link", "menuitem", "option", "tab", "checkbox", "radio"].any
    (fun r => strContains (lowerStr role) r)

/-- Decision core of `isSelectorClickable`, taking the raw DOM
observations.  The oracle `tag` field is the already-lowercased tag
name, matching `(el.tagName || "").toLowerCase()`. -/
def clickableCore (count : Nat) (vis boxP enabled evOk : Bool) (tag role : String)
    (oc ti : Bool) : Bool :=
  if count = 0 then false
  else if ¬ vis then false
  else if ¬ boxP then false
  else
    let tag := if evOk then tag else ""
    let role := if evOk then role else ""
    let oc := if evOk then oc else false
    let ti := if evOk then ti else false
    if (tag = "button" ∨ tag = "a" ∨ tag = "input") ∧ enabled then true
    else if interactiveRole role ∧ enabled then true
    else if oc ∧ (enabled ∨ boxP) then true
    else if ti ∧ enabled then true
    else false

/-- `isSelectorClickable`: one combined inspection of the page, one
tick.  A falsy selector is rejected without touching the page. -/
def isSelectorClickable (o : Oracle) (s : String) (w : World) : Bool × World :=
  if s = "" then (false, w)
  else
    let t := w.clock
    (clickableCore (o.count t s) (o.visible t s) (o.box t s) (o.enabled t s)
      (o.evalOk t s) (o.tag t s) (o.role t s) (o.hasOnClick t s) (o.hasTabIndex t s),
      tick w)

/-- Static-page clickability. -/
def clickableP (p : PageView) (s : String) : Bool :=
  if s = "" then false
  else clickableCore (p.count s) (p.visible s) (p.box s) (p.enabled s)
    (p.evalOk s) (p.tag s) (p.role s) (p.hasOnClick s) (p.hasTabIndex s)

/-- Decision core of `isSelectorFillable`.  An `evaluate` failure is
caught by the enclosing try and yields `false`. -/
def fillableCore (count : Nat) (vis evOk : Bool) (tag : String) (ce : Bool)
    (role : String) : Bool :=
  if count = 0 then false
  else if ¬ vis then false
  else if ¬ evOk then false
  else if tag = "" then false
  else if tag = "input" ∨ tag = "textarea" then true
  else if ce then true
  else if strContains (lowerStr role) "textbox" then true
  else false

/-- `isSelectorFillable`: one combined inspection, one tick. -/
def isSelectorFillable (o : Oracle) (s : String) (w : World) : Bool × World :=
  if s = "" then (false, w)
  else
    let t := w.clock
    (fillableCore (o.count t s) (o.visible t s) (o.evalOk t s) (o.tag t s)
      (o.contentEditable t s) (o.role t s), tick w)

/-- Static-page fillability. -/
def fillableP (p : PageView) (s : String) : Bool :=
  if s = "" then false
  else fillableCore (p.count s) (p.visible s) (p.evalOk s) (p.tag s)
    (p.contentEditable s) (p.role s)

/-- `filterSelectorsByCheck` (lines 320-333): keep, in order, the truthy
selectors that pass the given capability check. -/
def filterSelectorsByCheck (check : String → World → Bool × World) :
    List String → World → List String × World
  | [], w => ([], w)
  | s :: rest, w =>
    if s = "" then filterSelectorsByCheck check rest w
    else
      let r := check s w
      let r2 := filterSelectorsByCheck check rest r.2
      (if r.1 then s :: r2.1 else r2.1, r2.2)

/-! ## tryFillWithFallback (executor.ts lines 155-199) -/

/-- `tryFillWithFallback`: walk the candidates, skip the ones that do
not exist, try a direct `fill`, fall back to focus-plus-keystrokes when
permitted, and finally (when permitted) type into whatever element has
focus. -/
def tryFillWithFallback (o : Oracle) (text : String) (fb : Bool) :
    List String → World → Bool × World
  | [], w => if fb then opType o text w else (false, w)
  | s :: rest, w =>
    if s = "" then tryFillWithFallback o text fb rest w
    else
      if o.count w.clock s = 0 then tryFillWithFallback o text fb rest (tick w)
      else
        let r := opFill o s text w
        if r.1 then (true, r.2)
        else if fb then
          let rf := opFocus o s r.2
          if rf.1 then
            let rt := opType o text rf.2
            if rt.1 then (true, rt.2) else tryFillWithFallback o text fb rest rt.2
          else tryFillWithFallback o text fb rest rf.2
        else tryFillWithFallback o text fb rest r.2

/-! ## saveCheckpoint (executor.ts lines 95-151) -/

/-- Wait for the first verification candidate that appears
(best-effort); report which one did. -/
def waitFirst (o : Oracle) : List String → World → Option String × World
  | [], w => (none, w)
  | v :: rest, w =>
    let r := opWaitSel o v w
    if r.1 then (some v, r.2) else waitFirst o rest r.2

/-- Truthy expected dialog of an action, when declared. -/
def dialogTruthy (a : PlanAction) : Option String :=
  match a.expected_dialog with
  | some d => if d = "" then none else some d
  | none => none

/-- Verification candidates of `saveCheckpoint` (lines 120-124): the
recently used selector (when truthy), the declared expected dialog
(when truthy), then any explicit extra wait targets. -/
def scVerif (action : Option PlanAction) (selectorUsed : Option String) :
    List String :=
  (match selectorUsed with
    | some s => if s = "" then [] else [s]
    | none => [])
  ++ (match action.bind (fun a => dialogTruthy a) with
    | some d => [d]
    | none => [])
  ++ ((action.bind (fun a => a.wait_for)).getD [])

/-- `saveCheckpoint`: build the screenshot filename from the entry
clock, best-effort wait for a verification selector, always take a
full-page screenshot, always write `meta.json` (with a null screenshot
path when the screenshot failed, which in this model means: no `.png`
file is written). -/
def saveCheckpoint (o : Oracle) (taskId ckptName : String) (actionIndex : Nat)
    (action : Option PlanAction) (selectorUsed : Option String) (conf : Option Nat)
    (w : World) : World :=
  let shotFname := pad2 actionIndex ++ "_" ++ collapseWs ckptName ++ "_"
    ++ toString w.clock ++ ".png"
  let rw := waitFirst o (scVerif action selectorUsed) w
  let rs := opShot o ckptName rw.2
  let meta : Meta := {
    task_id := taskId
    checkpoint := ckptName
    action_index := actionIndex
    action_type := action.bind (fun a => a.type)
    selector_used := jsCoalesce rw.1 selectorUsed
    notes := action.bind (fun a => a.notes)
    url := o.url rs.2.clock
    timestamp := rs.2.clock
    planner_confidence := conf }
  let w2 := if rs.1 then fsWrite ckptName shotFname .png rs.2 else rs.2
  fsWrite ckptName "meta.json" (.meta meta) w2

/-! ## askPlannerForRecovery (executor.ts lines 276-313) -/

/-- `askPlannerForRecovery`: one collaborator round trip; a thrown call
degrades to no candidates; otherwise extract reference-like strings from
the JSON-like response. -/
def askPlannerForRecovery (o : Oracle) (w : World) : Option (List String) × World :=
  let r := o.planner w.clock
  let w2 := tick (emit (.plannerCall r.isSome) w)
  match r with
  | none => (none, w2)
  | some j => (extractRecoverySelectors j, w2)

/-! ## captureDomSummary (dom_capture.ts lines 51-182)

The recovery path calls `captureDomSummary(page, { outDir:
path.join(outDir, taskId, "recovery") })` (executor.ts line 567), so the
files it writes land under the `recovery` directory of the run. -/

/-- `captureDomSummary` as invoked by the recovery path: a best-effort
JPEG screenshot (persisted only when the buffer is non-empty, i.e. when
the screenshot succeeded), then the awaited title and the two element
scans, then the DOM summary JSON, which is always written.  Timestamped
filenames use the clock at which the source calls `Date.now()`. -/
def captureDomSummary (o : Oracle) (w : World) : World :=
  let rs := opShot o "recovery" w
  let w1 :=
    if rs.1 then
      fsWrite "recovery" ("screenshot-" ++ toString rs.2.clock ++ ".jpg") .jpg rs.2
    else rs.2
  let w2 := tick (tick (tick w1))
  fsWrite "recovery" ("dom-summary-" ++ toString w2.clock ++ ".json") .domSummary w2

/-! ## fallbackSelectors (executor.ts lines 62-88)

This helper builds fuzzy text candidates, guarded by a minimum length of
3 characters.  No executor code path invokes it: it is retained here
because the specification quotes its guard. -/

/-- JS `split(/\s+/)`: split on whitespace runs, keeping one leading
(resp. trailing) empty segment when the string starts (resp. ends) with
whitespace. -/
def jsSplitWs (t : String) : List String :=
  if t = "" then [""]
  else
    let segs := (splitWsChar t).filter (fun s => s ≠ "")
    let segs := if t.front.isWhitespace then "" :: segs else segs
    if t.back.isWhitespace then segs ++ [""] else segs

/-- `fallbackSelectors` (dead code kept for reference): text-hint
candidates only for cleaned hints longer than 2 characters, then common
fallbacks, then the original selectors; resolved with an 800 ms budget
(8 poll iterations). -/
def fallbackSelectors (o : Oracle) (originalSelectors : List String)
    (textHint : Option String) (w : World) : Option String × World :=
  let fromHint :=
    match textHint with
    | some t =>
      if t ≠ "" ∧ jsTrim t ≠ "" then
        let clean := stripQuotes (jsTrim t)
        (if clean.length > 2 then
          [":has-text(\"" ++ clean ++ "\")", "button:has-text(\"" ++ clean ++ "\")"]
        else [])
        ++ ((jsSplitWs t).take 3).filterMap
          (fun p => if p.length > 2 then some (":has-text(\"" ++ p ++ "\")") else none)
      else []
    | none => []
  let candidates := fromHint
    ++ ["button:has-text(\x27Create\x27)", "button:has-text(\x27+\x27)"]
    ++ originalSelectors.filter (fun s => s ≠ "")
  trySelectorsSimple o candidates 8 w

/-! ## The per-action executors (executor.ts lines 361-560) -/

/-- `action.selector || action.selector_candidates || []` (an empty
array is truthy in JS and therefore kept). -/
def selOrCands (a : PlanAction) : List String :=
  match a.selector with
  | some l => l
  | none => a.selector_candidates.getD []

/-- The candidate-merging loop: push each truthy original selector not
already present (the one-shot selector, when eligible, seeds the
accumulator first). -/
def jsDedupPush (init : List String) (l : List String) : List String :=
  l.foldl (fun acc s => if s ≠ "" ∧ s ∉ acc then acc ++ [s] else acc) init

/-- The synthesized contains-text reference of the click fallback
(line 443). -/
def textLocOf (t : String) : String :=
  ":has-text(\"" ++ stripQuotes (jsTrim t) ++ "\")"

/-- Final click heuristic (lines 441-449): when no candidate resolved,
click by visible text whenever the trimmed free text is non-empty; a
successful text click becomes both the chosen and the remembered
selector, a failed one is swallowed. -/
def clickTextFallback (o : Oracle) (a : PlanAction) (w : World) :
    Option String × World :=
  match a.text with
  | some t =>
    if jsTrim t = "" then (none, w)
    else
      let tl := textLocOf t
      let r := opClick o tl w
      if r.1 then (some tl, r.2) else (none, r.2)
  | none => (none, w)

/-- Final phase of the `click` action (lines 453-472): one-shot
clearing, the actual click, and the expected-dialog post-condition.
`last2` is the remembered selector as of line 454 (updated by a
successful text fallback). -/
def execClickGo (o : Oracle) (a : PlanAction) (shouldUse : Bool)
    (last2 : Option String) (chosen : String) (w : World) :
    Except String (Option String × Option String) × World :=
  let last3 := if shouldUse && strTruthy last2 && decide (last2 = some chosen)
    then none else some chosen
  let rk := opClick o chosen w
  if ¬ rk.1 then (.error "click: click failed", rk.2)
  else
    match dialogTruthy a with
    | some d =>
      let rd := opWaitSel o d rk.2
      if rd.1 then (.ok (some chosen, last3), rd.2)
      else (.error ("click: expected dialog " ++ d
        ++ " did not appear after click"), rd.2)
    | none => (.ok (some chosen, last3), rk.2)

/-- Candidate merging, clickability filtering, resolution and the
text fallback of the `click` action (lines 416-451), starting from the
revalidated one-shot selector `last1`. -/
def execClickTail (o : Oracle) (a : PlanAction) (shouldUse : Bool)
    (last1 : Option String) (w : World) :
    Except String (Option String × Option String) × World :=
  let selectorsOrig := selOrCands a
  let merged := jsDedupPush
    (if shouldUse && strTruthy last1 then [last1.getD ""] else []) selectorsOrig
  let rf := filterSelectorsByCheck (isSelectorClickable o)
    (if merged = [] then selectorsOrig else merged) w
  if rf.1 = [] then (.error "click: no clickable selector matched", rf.2)
  else
    let rt := trySelectorsSimple o (if rf.1 = [] then selectorsOrig else rf.1) 12 rf.2
    match rt.1 with
    | some c => execClickGo o a shouldUse last1 c rt.2
    | none =>
      let rb := clickTextFallback o a rt.2
      match rb.1 with
      | some tl => execClickGo o a shouldUse (some tl) tl rb.2
      | none => (.error "click: no selector matched", rb.2)

/-- The `click` action (lines 403-472).  Returns
`(chosenSelector, new lastSelectorUsed)` on success. -/
def execClick (o : Oracle) (a : PlanAction) (shouldUse : Bool)
    (last0 : Option String) (w : World) :
    Except String (Option String × Option String) × World :=
  let r1 :=
    if shouldUse && strTruthy last0 then
      let rc := isSelectorClickable o (last0.getD "") w
      ((if rc.1 then last0 else none), rc.2)
    else (last0, w)
  execClickTail o a shouldUse r1.1 r1.2

/-- Fixed prefix of the fill-failure message (the source appends a JSON
dump of the tried selectors and errors). -/
def fillFailMsg : String := "tryFillWithFallback: failed to fill value"

/-- Bookkeeping of the direct-success fill path (lines 528-537): when
the one-shot selector was consumed (it sits at the head of the merged
list), clear it; otherwise record `action.selector[0]` (falling back to
the current remembered selector) as both the used reference and the new
remembered selector. -/
def fillRecordUsed (a : PlanAction) (shouldUse : Bool) (last1 : Option String)
    (merged : List String) : Option String × Option String :=
  if shouldUse && strTruthy last1 && decide (merged.head? = last1) then (last1, none)
  else
    let chosen := jsOrS (match a.selector with
      | some l => l.head?
      | none => none) last1
    (chosen, chosen)

/-- Merging, fillability filtering, the direct fill attempt and the
dialog-retry path of the `fill` action (lines 486-538). -/
def execFillTail (o : Oracle) (a : PlanAction) (shouldUse : Bool)
    (last1 : Option String) (w : World) :
    Except String (Option String × Option String) × World :=
  let selectorsOrig := selOrCands a
  let merged := jsDedupPush
    (if shouldUse && strTruthy last1 then [last1.getD ""] else []) selectorsOrig
  let rf := filterSelectorsByCheck (isSelectorFillable o)
    (if merged = [] then selectorsOrig else merged) w
  if rf.1 = [] then (.error "fill: no fillable selector matched", rf.2)
  else
    let fb := a.fallback_to_keyboard.getD false
    let text := a.text.getD ""
    let rw := tryFillWithFallback o text fb
      (if rf.1 = [] then selectorsOrig else rf.1) rf.2
    if rw.1 then (.ok (fillRecordUsed a shouldUse last1 merged), rw.2)
    else
      match dialogTruthy a with
      | some d =>
        let rd := opWaitSel o d rw.2
        let rr := trySelectorsSimple o (if merged = [] then selectorsOrig else merged) 10 rd.2
        match rr.1 with
        | some retry =>
          let r2 := tryFillWithFallback o text fb [retry] rr.2
          if r2.1 then
            (.ok (some retry,
              if shouldUse && decide (last1 = some retry) then none else some retry), r2.2)
          else (.error fillFailMsg, r2.2)
        | none => (.error fillFailMsg, rr.2)
      | none => (.error fillFailMsg, rw.2)

/-- The `fill` action (lines 473-538). -/
def execFill (o : Oracle) (a : PlanAction) (shouldUse : Bool)
    (last0 : Option String) (w : World) :
    Except String (Option String × Option String) × World :=
  let r1 :=
    if shouldUse && strTruthy last0 then
      let rc := isSelectorFillable o (last0.getD "") w
      ((if rc.1 then last0 else none), rc.2)
    else (last0, w)
  execFillTail o a shouldUse r1.1 r1.2



/-- The `waitForSelector` action (lines 376-402): resolve, remember the
match as the one-shot selector, actively wait for it (outcome ignored),
or raise to allow recovery. -/
def execWaitForSelector (o : Oracle) (a : PlanAction) (w : World) :
    Except String (Option String × Option String) × World :=
  let rt := trySelectorsSimple o (selOrCands a) 12 w
  match rt.1 with
  | some c =>
    let rd := opWaitSel o c rt.2
    (.ok (some c, some c), rd.2)
  | none => (.error "waitForSelector: no selector matched", rt.2)

/-- The `goto` action (lines 541-548): first truthy of `url`, `text`,
`selector[0]`; navigation clears the remembered selector. -/
def execGoto (o : Oracle) (a : PlanAction) (w : World) :
    Except String (Option String × Option String) × World :=
  let u? := jsOrS a.url (jsOrS a.text (jsOrS (a.selector.bind List.head?) none))
  match u? with
  | some u =>
    let r := opGoto o u w
    if r.1 then (.ok (some u, none), r.2)
    else (.error "goto: navigation failed", r.2)
  | none => (.error "goto action missing url in url or text or selector[0]", w)

/-- One action of the checkpoint loop (lines 361-560), given the
previous array entry (for the one-shot condition), the current action
index and the current remembered selector.  Returns
`(chosenSelector, new lastSelectorUsed)`. -/
def execAction (o : Oracle) (taskId name : String) (conf : Option Nat)
    (a : PlanAction) (prev : Option PlanAction) (ai : Nat)
    (last : Option String) (w : World) :
    Except String (Option String × Option String) × World :=
  let shouldUse : Bool :=
    (match prev with
      | some p => decide (p.type = some "waitForSelector")
      | none => false)
    && (decide (a.type = some "click") || decide (a.type = some "fill"))
    && strTruthy last
  if a.type = some "waitForSelector" then execWaitForSelector o a w
  else if a.type = some "click" then execClick o a shouldUse last w
  else if a.type = some "fill" then execFill o a shouldUse last w
  else if a.type = some "waitForTimeout" then (.ok (none, last), tick w)
  else if a.type = some "goto" then execGoto o a w
  else if a.type = some "screenshot" then
    let dir := (jsOrS a.checkpoint_name (some name)).getD name
    (.ok (none, last), saveCheckpoint o taskId dir ai (some a) last conf w)
  else (.ok (none, last), w)

/-! ## Recovery (executor.ts lines 561-669) -/

/-- Lower-cased trimmed text hint of the failing action, when truthy. -/
def textHintOf (a : PlanAction) : Option String :=
  match a.text with
  | some t => if t = "" then none else some (lowerStr (jsTrim t))
  | none => none

/-- Stable preference order: candidates mentioning the text hint first
(the comparator returns -1 for them and 0 otherwise, and `sort` is
stable). -/
def orderByTextHint (hint : Option String) (l : List String) : List String :=
  match hint with
  | none => l
  | some th =>
    l.filter (fun s => strContains (lowerStr s) th)
      ++ l.filter (fun s => ¬ strContains (lowerStr s) th)

/-- Sequential recovery trials with full side-effect verification
(lines 599-649): per candidate, perform the real click / fill / wait;
when the action declares an expected dialog, require it to appear
before accepting; a trial whose side effect succeeds but whose
post-condition fails is discarded and the next candidate is tried. -/
def tryRecCands (o : Oracle) (a : PlanAction) :
    List String → World → Option String × World
  | [], w => (none, w)
  | c :: rest, w =>
    if a.type = some "click" then
      let r := opClick o c w
      if ¬ r.1 then tryRecCands o a rest r.2
      else
        match dialogTruthy a with
        | some d =>
          let rd := opWaitSel o d r.2
          if rd.1 then (some c, rd.2) else tryRecCands o a rest rd.2
        | none => (some c, r.2)
    else if a.type = some "fill" then
      let r := tryFillWithFallback o (a.text.getD "") (a.fallback_to_keyboard.getD false) [c] w
      if ¬ r.1 then tryRecCands o a rest r.2
      else
        match dialogTruthy a with
        | some d =>
          let rd := opWaitSel o d r.2
          if rd.1 then (some c, rd.2) else tryRecCands o a rest rd.2
        | none => (some c, r.2)
    else if a.type = some "waitForSelector" then
      let r := opWaitSel o c w
      if r.1 then (some c, r.2) else tryRecCands o a rest r.2
    else
      let r := opClick o c w
      if r.1 then (some c, r.2) else tryRecCands o a rest r.2

/-- Abort error text (line 666). -/
def abortMsg (name : String) (ai : Nat) (err : String) : String :=
  "Executor aborted: unrecoverable action at checkpoint " ++ name
    ++ ", actionIndex " ++ toString ai ++ ": " ++ err

/-- The catch block of the action loop (lines 561-669): settle delay,
fresh DOM snapshot (whose screenshot and summary files are persisted
under the `recovery` directory), one planner recovery request,
capability filtering, text-hint ordering, sequential verified trials;
on failure persist one failure document and abort the run. -/
def recoveryFlow (o : Oracle) (taskId name : String) (a : PlanAction) (ai : Nat)
    (err : String) (w : World) : Except String (Option String) × World :=
  let w1 := tick w
  let w2 := captureDomSummary o w1
  let rp := askPlannerForRecovery o w2
  let racc : Option String × World :=
    match rp.1 with
    | none => (none, rp.2)
    | some l =>
      let rfil :=
        if a.type = some "click" then
          filterSelectorsByCheck (isSelectorClickable o) l rp.2
        else if a.type = some "fill" then
          filterSelectorsByCheck (isSelectorFillable o) l rp.2
        else (l, rp.2)
      if (a.type = some "click" ∨ a.type = some "fill") ∧ rfil.1 = [] then
        (none, rfil.2)
      else
        tryRecCands o a (orderByTextHint (textHintOf a) rfil.1) rfil.2
  match racc.1 with
  | some c => (.ok (some c), racc.2)
  | none =>
    let doc : FailureDoc := {
      task_id := taskId
      checkpoint := name
      action_index := ai
      action := some a
      error := err
      url := o.url racc.2.clock
      timestamp := racc.2.clock }
    (.error (abortMsg name ai err), fsWrite name "failure.json" (.failure doc) racc.2)

/-! ## The plan runner (executor.ts lines 340-704) -/

/-- A checkpoint of the structured plan. -/
structure Checkpoint where
  name : Option String := none
  action_sequence : Option (List (Option PlanAction)) := none

/-- The checkpointed plan handed to the executor. -/
structure CheckpointedPlan where
  task_id : Option String := none
  checkpoints : Option (List Checkpoint) := none
  plan : Option (List (Option PlanAction)) := none

/-- Storage key of a checkpoint (line 353): JS string concatenation of a
possibly-undefined name and `"_checkpoint"`.  The concatenation is
always a non-empty (truthy) string, so the `|| checkpoint_ck` fallback
of the source is dead and a missing name yields
`"undefined_checkpoint"`. -/
def checkpointDirName (c : Checkpoint) : String :=
  (c.name.getD "undefined") ++ "_checkpoint"

/-- The action loop of one checkpoint (lines 361-671), threading the
previous array entry, the action index and the one-shot selector;
failures go through a single recovery attempt and otherwise abort. -/
def runActions (o : Oracle) (taskId name : String) (conf : Option Nat) :
    List (Option PlanAction) → Option PlanAction → Nat → Option String → World →
    Except String (Option String) × World
  | [], _, _, last, w => (.ok last, w)
  | none :: rest, _, ai, last, w =>
    runActions o taskId name conf rest none (ai + 1) last w
  | some a :: rest, prev, ai, last, w =>
    match execAction o taskId name conf a prev ai last w with
    | (.ok r, w1) => runActions o taskId name conf rest (some a) (ai + 1) r.2 w1
    | (.error err, w1) =>
      match recoveryFlow o taskId name a ai err w1 with
      | (.ok lastR, w2) => runActions o taskId name conf rest (some a) (ai + 1) lastR w2
      | (.error e, w2) => (.error e, w2)

/-- The end-of-checkpoint implicit capture (lines 683-699): skip when a
metadata file, any screenshot or the dedup marker already exists under
the checkpoint key; otherwise capture once (recording an
`implicitCap` event) and write the dedup marker. -/
def implicitCaptureBlock (o : Oracle) (taskId name : String)
    (acts : List (Option PlanAction)) (last : Option String) (conf : Option Nat)
    (w : World) : World :=
  if ¬ fsHas w name "meta.json" ∧ ¬ fsHas w name ".screenshot_saved"
      ∧ ¬ fsHasPng w name then
    let w1 := emit (.implicitCap name) w
    let w2 := saveCheckpoint o taskId name (acts.length - 1) acts.getLast?.join
      last conf w1
    fsWrite name ".screenshot_saved" .marker w2
  else w

/-- One checkpoint: fresh one-shot memory, the action loop, then the
implicit capture. -/
def runOneCheckpoint (o : Oracle) (taskId : String) (conf : Option Nat)
    (c : Checkpoint) (w : World) : Except String Unit × World :=
  let name := checkpointDirName c
  let acts := c.action_sequence.getD []
  match runActions o taskId name conf acts none 0 none w with
  | (.ok last, w1) => (.ok (), implicitCaptureBlock o taskId name acts last conf w1)
  | (.error e, w1) => (.error e, w1)

/-- The checkpoint loop: an abort stops the whole run. -/
def runCheckpoints (o : Oracle) (taskId : String) (conf : Option Nat) :
    List Checkpoint → World → Except String Unit × World
  | [], w => (.ok (), w)
  | c :: rest, w =>
    match runOneCheckpoint o taskId conf c w with
    | (.ok _, w1) => runCheckpoints o taskId conf rest w1
    | (.error e, w1) => (.error e, w1)

/-- Result record of a successful run (line 703). -/
structure RunResult where
  status : String
  task_id : String
  checkpoints_executed : Nat
  timestamp : Nat
deriving DecidableEq, Repr

/-- `executeCheckpointedPlan` (lines 340-704): resolve the task id and
the checkpoint list (wrapping a flat plan), reject an empty plan, run
the checkpoints in order. -/
def executeCheckpointedPlan (o : Oracle) (p : CheckpointedPlan)
    (optTaskId : Option String) (conf : Option Nat) (w : World) :
    Except String RunResult × World :=
  let taskId := (jsOrS optTaskId (jsOrS p.task_id (some "task"))).getD "task"
  let cks :=
    match p.checkpoints with
    | some l => l
    | none =>
      match p.plan with
      | some acts => [Checkpoint.mk (some "plan") (some acts)]
      | none => []
  if cks.isEmpty then (.error "No checkpoints in plan", w)
  else
    match runCheckpoints o taskId conf cks w with
    | (.ok _, w1) =>
      (.ok (RunResult.mk "success" taskId cks.length w1.clock), w1)
    | (.error e, w1) => (.error e, w1)

/-! ## Shared invariant layer -/

/-- Number of implicit-capture events recorded for a checkpoint key. -/
def countIC (n : String) (evs : List Ev) : Nat :=
  (evs.filter (fun e => decide (e = Ev.implicitCap n))).length

/-- Any artifact (metadata, screenshot, dedup marker) under a
checkpoint key: the dedup test of the implicit capture. -/
def hasArtifacts (n : String) (w : World) : Bool :=
  fsHas w n "meta.json" || fsHas w n ".screenshot_saved" || fsHasPng w n

/-- Does a file record hold a failure document. -/
def isFailureRec (r : FileRec) : Bool :=
  match r.content with
  | .failure _ => true
  | _ => false

/-- The failure documents currently on disk. -/
def failureFiles (w : World) : List FileRec := w.fs.filter isFailureRec

/-- A step that only interacts with the page: the filesystem is
untouched and no implicit-capture event is recorded. -/
def PageOnly (w wA : World) : Prop :=
  wA.fs = w.fs ∧ ∀ n, countIC n wA.events = countIC n w.events

theorem PageOnly.self (w : World) : PageOnly w w := ⟨rfl, fun _ => rfl⟩

theorem PageOnly.chain {w1 w2 w3 : World} (h1 : PageOnly w1 w2)
    (h2 : PageOnly w2 w3) : PageOnly w1 w3 :=
  ⟨h2.1.trans h1.1, fun n => (h2.2 n).trans (h1.2 n)⟩

theorem po_tick (w : World) : PageOnly w (tick w) := ⟨rfl, fun _ => rfl⟩

theorem po_emit (e : Ev) (he : ∀ n, e ≠ Ev.implicitCap n) (w : World) :
    PageOnly w (emit e w) := by
  refine ⟨rfl, fun n => ?_⟩
  simp only [countIC, emit, List.filter_append, List.length_append]
  have : (List.filter (fun e => decide (e = Ev.implicitCap n)) [e]).length = 0 := by
    simp [List.filter, he n]
  omega

theorem po_tick_emit (e : Ev) (he : ∀ n, e ≠ Ev.implicitCap n) (w : World) :
    PageOnly w (tick (emit e w)) :=
  (po_emit e he w).chain (po_tick _)

theorem po_opClick (o : Oracle) (s : String) (w : World) :
    PageOnly w (opClick o s w).2 :=
  po_tick_emit _ (fun _ => by simp) w

theorem po_opFill (o : Oracle) (s t : String) (w : World) :
    PageOnly w (opFill o s t w).2 :=
  po_tick_emit _ (fun _ => by simp) w

theorem po_opFocus (o : Oracle) (s : String) (w : World) :
    PageOnly w (opFocus o s w).2 :=
  po_tick_emit _ (fun _ => by simp) w

theorem po_opType (o : Oracle) (t : String) (w : World) :
    PageOnly w (opType o t w).2 :=
  po_tick_emit _ (fun _ => by simp) w

theorem po_opWaitSel (o : Oracle) (s : String) (w : World) :
    PageOnly w (opWaitSel o s w).2 :=
  po_tick _

theorem po_opGoto (o : Oracle) (u : String) (w : World) :
    PageOnly w (opGoto o u w).2 :=
  po_tick_emit _ (fun _ => by simp) w

theorem po_opShot (o : Oracle) (d : String) (w : World) :
    PageOnly w (opShot o d w).2 :=
  po_tick_emit _ (fun _ => by simp) w

theorem po_pollLoop (o : Oracle) (s : String) (fuel : Nat) (w : World) :
    PageOnly w (pollLoop o s fuel w).2 := by
  induction fuel generalizing w with
  | zero => exact PageOnly.self w
  | succ n ih =>
    rw [pollLoop]
    by_cases h : matchedAt o s w.clock = true
    · rw [if_pos h]; exact po_tick w
    · rw [if_neg h]; exact (po_tick w).chain (ih (tick w))

theorem po_trySel (o : Oracle) (sels : List String) (fuel : Nat) (w : World) :
    PageOnly w (trySelectorsSimple o sels fuel w).2 := by
  induction sels generalizing w with
  | nil => exact PageOnly.self w
  | cons s rest ih =>
    rw [trySelectorsSimple]
    by_cases hs : s = ""
    · rw [if_pos hs]; exact ih w
    · rw [if_neg hs]
      rcases hp : pollLoop o s fuel w with ⟨b, wB⟩
      have hpo : PageOnly w wB := by
        have := po_pollLoop o s fuel w
        rw [hp] at this
        exact this
      cases b with
      | true => exact hpo
      | false => exact hpo.chain (ih wB)

theorem po_isClickable (o : Oracle) (s : String) (w : World) :
    PageOnly w (isSelectorClickable o s w).2 := by
  rw [isSelectorClickable]
  by_cases hs : s = ""
  · rw [if_pos hs]; exact PageOnly.self w
  · rw [if_neg hs]; exact po_tick w

theorem po_isFillable (o : Oracle) (s : String) (w : World) :
    PageOnly w (isSelectorFillable o s w).2 := by
  rw [isSelectorFillable]
  by_cases hs : s = ""
  · rw [if_pos hs]; exact PageOnly.self w
  · rw [if_neg hs]; exact po_tick w

theorem po_filter (check : String → World → Bool × World)
    (hc : ∀ s w, PageOnly w (check s w).2) (l : List String) (w : World) :
    PageOnly w (filterSelectorsByCheck check l w).2 := by
  induction l generalizing w with
  | nil => exact PageOnly.self w
  | cons s rest ih =>
    rw [filterSelectorsByCheck]
    by_cases hs : s = ""
    · rw [if_pos hs]; exact ih w
    · rw [if_neg hs]
      exact (hc s w).chain (ih (check s w).2)

theorem po_tryFill (o : Oracle) (text : String) (fb : Bool) (l : List String)
    (w : World) : PageOnly w (tryFillWithFallback o text fb l w).2 := by
  induction l generalizing w with
  | nil =>
    rw [tryFillWithFallback]
    by_cases hfb : fb = true
    · rw [if_pos hfb]; exact po_opType o text w
    · rw [if_neg hfb]; exact PageOnly.self w
  | cons s rest ih =>
    rw [tryFillWithFallback]
    by_cases hs : s = ""
    · rw [if_pos hs]; exact ih w
    · rw [if_neg hs]
      by_cases hcnt : o.count w.clock s = 0
      · rw [if_pos hcnt]; exact (po_tick w).chain (ih (tick w))
      · rw [if_neg hcnt]
        by_cases h1 : (opFill o s text w).1 = true
        · rw [if_pos h1]; exact po_opFill o s text w
        · rw [if_neg h1]
          by_cases hfb : fb = true
          · rw [if_pos hfb]
            by_cases h2 : (opFocus o s (opFill o s text w).2).1 = true
            · rw [if_pos h2]
              set w1 := (opFill o s text w).2 with hw1
              set w2 := (opFocus o s w1).2 with hw2
              have pa : PageOnly w w2 :=
                (po_opFill o s text w).chain (po_opFocus o s w1)
              by_cases h3 : (opType o text w2).1 = true
              · rw [if_pos h3]
                exact pa.chain (po_opType o text w2)
              · rw [if_neg h3]
                exact (pa.chain (po_opType o text w2)).chain (ih _)
            · rw [if_neg h2]
              exact ((po_opFill o s text w).chain (po_opFocus o s _)).chain (ih _)
          · rw [if_neg hfb]
            exact (po_opFill o s text w).chain (ih _)

theorem po_waitFirst (o : Oracle) (l : List String) (w : World) :
    PageOnly w (waitFirst o l w).2 := by
  induction l generalizing w with
  | nil => exact PageOnly.self w
  | cons v rest ih =>
    rw [waitFirst]
    by_cases h : (opWaitSel o v w).1 = true
    · rw [if_pos h]; exact po_opWaitSel o v w
    · rw [if_neg h]; exact (po_opWaitSel o v w).chain (ih _)

theorem po_clickTextFallback (o : Oracle) (a : PlanAction) (w : World) :
    PageOnly w (clickTextFallback o a w).2 := by
  rw [clickTextFallback]
  cases a.text with
  | none => exact PageOnly.self w
  | some t =>
    dsimp only
    by_cases ht : jsTrim t = ""
    · rw [if_pos ht]; exact PageOnly.self w
    · rw [if_neg ht]
      by_cases h : (opClick o (textLocOf t) w).1 = true
      · rw [if_pos h]; exact po_opClick o _ w
      · rw [if_neg h]; exact po_opClick o _ w

theorem po_askPlanner (o : Oracle) (w : World) :
    PageOnly w (askPlannerForRecovery o w).2 := by
  rw [askPlannerForRecovery]
  cases o.planner w.clock with
  | none => exact po_tick_emit _ (fun _ => by simp) w
  | some j => exact po_tick_emit _ (fun _ => by simp) w

theorem po_tryRecCands (o : Oracle) (a : PlanAction) (l : List String) (w : World) :
    PageOnly w (tryRecCands o a l w).2 := by
  induction l generalizing w with
  | nil => exact PageOnly.self w
  | cons c rest ih =>
    rw [tryRecCands]
    by_cases hclick : a.type = some "click"
    · rw [if_pos hclick]
      by_cases h1 : (opClick o c w).1 = true
      · rw [if_neg (by simp [h1])]
        cases dialogTruthy a with
        | some d =>
          dsimp only
          by_cases h2 : (opWaitSel o d (opClick o c w).2).1 = true
          · rw [if_pos h2]
            exact (po_opClick o c w).chain (po_opWaitSel o d _)
          · rw [if_neg h2]
            exact ((po_opClick o c w).chain (po_opWaitSel o d _)).chain (ih _)
        | none => exact po_opClick o c w
      · rw [if_pos (by simp [h1])]
        exact (po_opClick o c w).chain (ih _)
    · rw [if_neg hclick]
      by_cases hfill : a.type = some "fill"
      · rw [if_pos hfill]
        set r := tryFillWithFallback o (a.text.getD "") (a.fallback_to_keyboard.getD false) [c] w with hr
        have hpr : PageOnly w r.2 := po_tryFill o _ _ [c] w
        by_cases h1 : r.1 = true
        · rw [if_neg (by simp [h1])]
          cases dialogTruthy a with
          | some d =>
            dsimp only
            by_cases h2 : (opWaitSel o d r.2).1 = true
            · rw [if_pos h2]
              exact hpr.chain (po_opWaitSel o d _)
            · rw [if_neg h2]
              exact (hpr.chain (po_opWaitSel o d _)).chain (ih _)
          | none => exact hpr
        · rw [if_pos (by simp [h1])]
          exact hpr.chain (ih _)
      · rw [if_neg hfill]
        by_cases hwfs : a.type = some "waitForSelector"
        · rw [if_pos hwfs]
          by_cases h1 : (opWaitSel o c w).1 = true
          · rw [if_pos h1]; exact po_opWaitSel o c w
          · rw [if_neg h1]; exact (po_opWaitSel o c w).chain (ih _)
        · rw [if_neg hwfs]
          by_cases h1 : (opClick o c w).1 = true
          · rw [if_pos h1]; exact po_opClick o c w
          · rw [if_neg h1]; exact (po_opClick o c w).chain (ih _)

theorem po_execClickGo (o : Oracle) (a : PlanAction) (su : Bool)
    (last2 : Option String) (chosen : String) (w : World) :
    PageOnly w (execClickGo o a su last2 chosen w).2 := by
  rw [execClickGo]
  by_cases h1 : (opClick o chosen w).1 = true
  · rw [if_neg (by simp [h1])]
    cases dialogTruthy a with
    | some d =>
      dsimp only
      by_cases h2 : (opWaitSel o d (opClick o chosen w).2).1 = true
      · rw [if_pos h2]
        exact (po_opClick o chosen w).chain (po_opWaitSel o d _)
      · rw [if_neg h2]
        exact (po_opClick o chosen w).chain (po_opWaitSel o d _)
    | none => exact po_opClick o chosen w
  · rw [if_pos (by simp [h1])]
    exact po_opClick o chosen w

theorem po_execClickTail (o : Oracle) (a : PlanAction) (su : Bool)
    (last1 : Option String) (w : World) :
    PageOnly w (execClickTail o a su last1 w).2 := by
  rw [execClickTail]
  dsimp only
  set rrf := filterSelectorsByCheck (isSelectorClickable o)
    (if jsDedupPush (if (su && strTruthy last1) = true then [last1.getD ""] else [])
        (selOrCands a) = [] then selOrCands a
    else jsDedupPush (if (su && strTruthy last1) = true then [last1.getD ""] else [])
      (selOrCands a)) w with hrf
  clear_value rrf
  have hpo1 : PageOnly w rrf.2 := by rw [hrf]; exact po_filter _ (po_isClickable o) _ w
  by_cases hempty : rrf.1 = []
  · rw [if_pos hempty]
    exact hpo1
  · rw [if_neg hempty]
    set rrt := trySelectorsSimple o (if rrf.1 = [] then selOrCands a else rrf.1) 12 rrf.2 with hrt
    clear_value rrt
    have hpo2 : PageOnly w rrt.2 := by
      rw [hrt]
      exact hpo1.chain (po_trySel o _ 12 _)
    cases hc : rrt.1 with
    | some c =>
      exact hpo2.chain (po_execClickGo o a su last1 c _)
    | none =>
      dsimp only
      set rb := clickTextFallback o a rrt.2 with hrb
      clear_value rb
      have hpo3 : PageOnly w rb.2 := by
        rw [hrb]
        exact hpo2.chain (po_clickTextFallback o a _)
      cases htl : rb.1 with
      | some tl => exact hpo3.chain (po_execClickGo o a su (some tl) tl _)
      | none => exact hpo3

theorem po_execClick (o : Oracle) (a : PlanAction) (su : Bool)
    (last0 : Option String) (w : World) :
    PageOnly w (execClick o a su last0 w).2 := by
  rw [execClick]
  by_cases h1 : (su && strTruthy last0) = true
  · rw [if_pos h1]
    dsimp only
    exact (po_isClickable o (last0.getD "") w).chain (po_execClickTail o a su _ _)
  · rw [if_neg h1]
    exact po_execClickTail o a su last0 w

theorem po_execFillTail (o : Oracle) (a : PlanAction) (su : Bool)
    (last1 : Option String) (w : World) :
    PageOnly w (execFillTail o a su last1 w).2 := by
  rw [execFillTail]
  dsimp only
  set rrf := filterSelectorsByCheck (isSelectorFillable o)
    (if jsDedupPush (if (su && strTruthy last1) = true then [last1.getD ""] else [])
        (selOrCands a) = [] then selOrCands a
    else jsDedupPush (if (su && strTruthy last1) = true then [last1.getD ""] else [])
      (selOrCands a)) w with hrf
  clear_value rrf
  have hpo1 : PageOnly w rrf.2 := by rw [hrf]; exact po_filter _ (po_isFillable o) _ w
  by_cases hempty : rrf.1 = []
  · rw [if_pos hempty]
    exact hpo1
  · rw [if_neg hempty]
    set rw1 := tryFillWithFallback o (a.text.getD "") (a.fallback_to_keyboard.getD false)
      (if rrf.1 = [] then selOrCands a else rrf.1) rrf.2 with hrw
    clear_value rw1
    have hpo2 : PageOnly w rw1.2 := by
      rw [hrw]
      exact hpo1.chain (po_tryFill o _ _ _ _)
    by_cases hsucc : rw1.1 = true
    · rw [if_pos hsucc]
      exact hpo2
    · rw [if_neg hsucc]
      cases dialogTruthy a with
      | some d =>
        dsimp only
        set rr := trySelectorsSimple o
          (if jsDedupPush (if (su && strTruthy last1) = true then [last1.getD ""] else [])
              (selOrCands a) = [] then selOrCands a
          else jsDedupPush (if (su && strTruthy last1) = true then [last1.getD ""] else [])
            (selOrCands a)) 10 (opWaitSel o d rw1.2).2 with hrr
        clear_value rr
        have hpo3 : PageOnly w rr.2 := by
          rw [hrr]
          exact (hpo2.chain (po_opWaitSel o d rw1.2)).chain (po_trySel o _ 10 _)
        cases hretry : rr.1 with
        | some retry =>
          dsimp only
          set r2 := tryFillWithFallback o (a.text.getD "") (a.fallback_to_keyboard.getD false)
            [retry] rr.2 with hr2
          clear_value r2
          have hpo4 : PageOnly w r2.2 := by
            rw [hr2]
            exact hpo3.chain (po_tryFill o _ _ [retry] _)
          by_cases h2 : r2.1 = true
          · rw [if_pos h2]
            exact hpo4
          · rw [if_neg h2]
            exact hpo4
        | none => exact hpo3
      | none => exact hpo2

theorem po_execFill (o : Oracle) (a : PlanAction) (su : Bool)
    (last0 : Option String) (w : World) :
    PageOnly w (execFill o a su last0 w).2 := by
  rw [execFill]
  by_cases h1 : (su && strTruthy last0) = true
  · rw [if_pos h1]
    dsimp only
    exact (po_isFillable o (last0.getD "") w).chain (po_execFillTail o a su _ _)
  · rw [if_neg h1]
    exact po_execFillTail o a su last0 w

theorem po_execWaitForSelector (o : Oracle) (a : PlanAction) (w : World) :
    PageOnly w (execWaitForSelector o a w).2 := by
  rw [execWaitForSelector]
  dsimp only
  set rt := trySelectorsSimple o (selOrCands a) 12 w with hrt
  clear_value rt
  have hpo : PageOnly w rt.2 := by rw [hrt]; exact po_trySel o _ 12 w
  cases hc : rt.1 with
  | some c => exact hpo.chain (po_opWaitSel o c rt.2)
  | none => exact hpo

theorem po_execGoto (o : Oracle) (a : PlanAction) (w : World) :
    PageOnly w (execGoto o a w).2 := by
  rw [execGoto]
  cases jsOrS a.url (jsOrS a.text (jsOrS (a.selector.bind List.head?) none)) with
  | some u =>
    dsimp only
    by_cases h : (opGoto o u w).1 = true
    · rw [if_pos h]; exact po_opGoto o u w
    · rw [if_neg h]; exact po_opGoto o u w
  | none => exact PageOnly.self w

/-! ## Filesystem lemmas -/

theorem fsWrite_events (d f : String) (c : FC) (w : World) :
    (fsWrite d f c w).events = w.events := rfl

theorem fsWrite_mem {r : FileRec} (d f : String) (c : FC) (w : World)
    (h : r ∈ (fsWrite d f c w).fs) : r ∈ w.fs ∨ r = ⟨d, f, c⟩ := by
  rw [fsWrite] at h
  rcases List.mem_append.mp h with h1 | h1
  · exact Or.inl (List.mem_of_mem_filter h1)
  · exact Or.inr (List.mem_singleton.mp h1)

theorem fsHas_fsWrite_self (d f : String) (c : FC) (w : World) :
    fsHas (fsWrite d f c w) d f = true := by
  rw [fsHas, fsWrite, List.any_eq_true]
  exact ⟨⟨d, f, c⟩, List.mem_append.mpr (Or.inr (List.mem_singleton.mpr rfl)), by simp⟩

theorem fsHas_fsWrite_mono (d f d2 f2 : String) (c : FC) (w : World)
    (h : fsHas w d2 f2 = true) : fsHas (fsWrite d f c w) d2 f2 = true := by
  rw [fsHas, List.any_eq_true] at h
  obtain ⟨r, hr, hp⟩ := h
  simp only [decide_eq_true_eq] at hp
  by_cases hsame : r.dir = d ∧ r.fname = f
  · rw [fsHas, fsWrite, List.any_eq_true]
    refine ⟨⟨d, f, c⟩, List.mem_append.mpr (Or.inr (List.mem_singleton.mpr rfl)), ?_⟩
    simp only [decide_eq_true_eq]
    exact ⟨hsame.1 ▸ hp.1, hsame.2 ▸ hp.2⟩
  · rw [fsHas, fsWrite, List.any_eq_true]
    refine ⟨r, List.mem_append.mpr (Or.inl ?_), by simp [hp.1, hp.2]⟩
    rw [List.mem_filter]
    exact ⟨hr, by simp only [decide_eq_true_eq]; exact hsame⟩

theorem fsHasPng_fsWrite_mono (d f : String) (c : FC) (w : World) (n : String)
    (h : fsHasPng w n = true) : fsHasPng (fsWrite d f c w) n = true := by
  rw [fsHasPng, List.any_eq_true] at h
  obtain ⟨r, hr, hp⟩ := h
  simp only [Bool.and_eq_true, decide_eq_true_eq] at hp
  by_cases hsame : r.dir = d ∧ r.fname = f
  · rw [fsHasPng, fsWrite, List.any_eq_true]
    refine ⟨⟨d, f, c⟩, List.mem_append.mpr (Or.inr (List.mem_singleton.mpr rfl)), ?_⟩
    simp only [Bool.and_eq_true, decide_eq_true_eq]
    exact ⟨hsame.1 ▸ hp.1, hsame.2 ▸ hp.2⟩
  · rw [fsHasPng, fsWrite, List.any_eq_true]
    refine ⟨r, List.mem_append.mpr (Or.inl ?_), by simp [hp.1, hp.2]⟩
    rw [List.mem_filter]
    exact ⟨hr, by simp only [decide_eq_true_eq]; exact hsame⟩

/-- Monotonicity of the implicit-capture dedup test under any write. -/
theorem hasArtifacts_fsWrite_mono (d f : String) (c : FC) (w : World) (n : String)
    (h : hasArtifacts n w = true) : hasArtifacts n (fsWrite d f c w) = true := by
  rw [hasArtifacts, Bool.or_eq_true, Bool.or_eq_true] at h ⊢
  rcases h with (h1 | h1) | h1
  · exact Or.inl (Or.inl (fsHas_fsWrite_mono d f n "meta.json" c w h1))
  · exact Or.inl (Or.inr (fsHas_fsWrite_mono d f n ".screenshot_saved" c w h1))
  · exact Or.inr (fsHasPng_fsWrite_mono d f c w n h1)

/-- No failure document on disk. -/
def Fempty (w : World) : Prop := ∀ r ∈ w.fs, isFailureRec r = false

theorem Fempty_fsWrite (d f : String) (c : FC) (w : World)
    (hc : isFailureRec ⟨d, f, c⟩ = false) (h : Fempty w) :
    Fempty (fsWrite d f c w) := by
  intro r hr
  rcases fsWrite_mem d f c w hr with h1 | h1
  · exact h r h1
  · rw [h1]; exact hc

theorem failureFiles_fsWrite_failure (d f : String) (doc : FailureDoc) (w : World)
    (h : Fempty w) :
    failureFiles (fsWrite d f (.failure doc) w) = [⟨d, f, .failure doc⟩] := by
  rw [failureFiles, fsWrite, List.filter_append]
  have h1 : (w.fs.filter (fun r => ¬(r.dir = d ∧ r.fname = f))).filter isFailureRec = [] := by
    rw [List.filter_eq_nil]
    intro r hr
    have := h r (List.mem_of_mem_filter hr)
    simp [this]
  rw [h1]
  simp [isFailureRec]

theorem Fempty_of_PageOnly {w wA : World} (hpo : PageOnly w wA) (h : Fempty w) :
    Fempty wA := by
  intro r hr
  rw [hpo.1] at hr
  exact h r hr

theorem failureFiles_eq_nil_of_Fempty {w : World} (h : Fempty w) :
    failureFiles w = [] := by
  rw [failureFiles, List.filter_eq_nil]
  intro r hr
  simp [h r hr]

/-! ## saveCheckpoint lemmas -/

theorem sc_world_shape (o : Oracle) (taskId ckptName : String) (ai : Nat)
    (action : Option PlanAction) (selU : Option String) (conf : Option Nat) (w : World) :
    ∃ wMid : World, PageOnly w wMid ∧
      ((saveCheckpoint o taskId ckptName ai action selU conf w
          = fsWrite ckptName "meta.json"
            (.meta ⟨taskId, ckptName, ai, action.bind (fun a => a.type),
              jsCoalesce (waitFirst o (scVerif action selU) w).1 selU, action.bind (fun a => a.notes),
              o.url wMid.clock, wMid.clock, conf⟩)
            (fsWrite ckptName (pad2 ai ++ "_" ++ collapseWs ckptName ++ "_"
              ++ toString w.clock ++ ".png") .png wMid))
        ∨ (saveCheckpoint o taskId ckptName ai action selU conf w
          = fsWrite ckptName "meta.json"
            (.meta ⟨taskId, ckptName, ai, action.bind (fun a => a.type),
              jsCoalesce (waitFirst o (scVerif action selU) w).1 selU, action.bind (fun a => a.notes),
              o.url wMid.clock, wMid.clock, conf⟩) wMid)) := by
  rw [saveCheckpoint]
  refine ⟨(opShot o ckptName (waitFirst o (scVerif action selU) w).2).2,
    (po_waitFirst o _ w).chain (po_opShot o ckptName _), ?_⟩
  by_cases hshot : (opShot o ckptName (waitFirst o (scVerif action selU) w).2).1 = true
  · rw [if_pos hshot]
    exact Or.inl rfl
  · rw [if_neg hshot]
    exact Or.inr rfl

theorem sc_countIC (o : Oracle) (taskId ckptName : String) (ai : Nat)
    (action : Option PlanAction) (selU : Option String) (conf : Option Nat)
    (w : World) (n : String) :
    countIC n (saveCheckpoint o taskId ckptName ai action selU conf w).events
      = countIC n w.events := by
  obtain ⟨wMid, hpo, hshape | hshape⟩ :=
    sc_world_shape o taskId ckptName ai action selU conf w
  · rw [hshape, fsWrite_events, fsWrite_events]
    exact hpo.2 n
  · rw [hshape, fsWrite_events]
    exact hpo.2 n

theorem sc_hasArtifacts_mono (o : Oracle) (taskId ckptName : String) (ai : Nat)
    (action : Option PlanAction) (selU : Option String) (conf : Option Nat)
    (w : World) (n : String) (h : hasArtifacts n w = true) :
    hasArtifacts n (saveCheckpoint o taskId ckptName ai action selU conf w) = true := by
  obtain ⟨wMid, hpo, hshape | hshape⟩ :=
    sc_world_shape o taskId ckptName ai action selU conf w
  · rw [hshape]
    have hmid : hasArtifacts n wMid = true := by
      rw [hasArtifacts, fsHas, fsHas, fsHasPng, hpo.1]
      exact h
    exact hasArtifacts_fsWrite_mono _ _ _ _ n
      (hasArtifacts_fsWrite_mono _ _ _ _ n hmid)
  · rw [hshape]
    have hmid : hasArtifacts n wMid = true := by
      rw [hasArtifacts, fsHas, fsHas, fsHasPng, hpo.1]
      exact h
    exact hasArtifacts_fsWrite_mono _ _ _ _ n hmid

theorem sc_meta_present (o : Oracle) (taskId ckptName : String) (ai : Nat)
    (action : Option PlanAction) (selU : Option String) (conf : Option Nat)
    (w : World) :
    fsHas (saveCheckpoint o taskId ckptName ai action selU conf w)
      ckptName "meta.json" = true := by
  obtain ⟨wMid, hpo, hshape | hshape⟩ :=
    sc_world_shape o taskId ckptName ai action selU conf w
  · rw [hshape]; exact fsHas_fsWrite_self _ _ _ _
  · rw [hshape]; exact fsHas_fsWrite_self _ _ _ _

theorem sc_Fempty (o : Oracle) (taskId ckptName : String) (ai : Nat)
    (action : Option PlanAction) (selU : Option String) (conf : Option Nat)
    (w : World) (h : Fempty w) :
    Fempty (saveCheckpoint o taskId ckptName ai action selU conf w) := by
  obtain ⟨wMid, hpo, hshape | hshape⟩ :=
    sc_world_shape o taskId ckptName ai action selU conf w
  · rw [hshape]
    exact Fempty_fsWrite _ _ _ _ (by rfl)
      (Fempty_fsWrite _ _ _ _ (by rfl) (Fempty_of_PageOnly hpo h))
  · rw [hshape]
    exact Fempty_fsWrite _ _ _ _ (by rfl) (Fempty_of_PageOnly hpo h)

theorem sc_mem (o : Oracle) (taskId ckptName : String) (ai : Nat)
    (action : Option PlanAction) (selU : Option String) (conf : Option Nat)
    (w : World) (r : FileRec)
    (h : r ∈ (saveCheckpoint o taskId ckptName ai action selU conf w).fs) :
    r ∈ w.fs ∨ r.dir = ckptName := by
  obtain ⟨wMid, hpo, hshape | hshape⟩ :=
    sc_world_shape o taskId ckptName ai action selU conf w
  · rw [hshape] at h
    rcases fsWrite_mem _ _ _ _ h with h1 | h1
    · rcases fsWrite_mem _ _ _ _ h1 with h2 | h2
      · rw [hpo.1] at h2
        exact Or.inl h2
      · exact Or.inr (by rw [h2])
    · exact Or.inr (by rw [h1])
  · rw [hshape] at h
    rcases fsWrite_mem _ _ _ _ h with h1 | h1
    · rw [hpo.1] at h1
      exact Or.inl h1
    · exact Or.inr (by rw [h1])

/-! ## Step bundles over actions and recovery -/

/-- Facts preserved by every executor step, aborting or not: no
implicit-capture event is recorded, and artifacts on disk stay on
disk. -/
def CapStep (w wA : World) : Prop :=
  (∀ n, countIC n wA.events = countIC n w.events) ∧
  (∀ n, hasArtifacts n w = true → hasArtifacts n wA = true)

theorem CapStep.base (w : World) : CapStep w w := ⟨fun _ => rfl, fun _ h => h⟩

theorem CapStep.comp {w1 w2 w3 : World} (h1 : CapStep w1 w2)
    (h2 : CapStep w2 w3) : CapStep w1 w3 :=
  ⟨fun n => (h2.1 n).trans (h1.1 n), fun n h => h2.2 n (h1.2 n h)⟩

theorem CapStep_of_PageOnly {w wA : World} (h : PageOnly w wA) : CapStep w wA := by
  refine ⟨h.2, fun n hn => ?_⟩
  rw [hasArtifacts, fsHas, fsHas, fsHasPng, h.1]
  exact hn

theorem CapStep_fsWrite (d f : String) (c : FC) (w : World) :
    CapStep w (fsWrite d f c w) :=
  ⟨fun n => by rw [fsWrite_events], fun n h => hasArtifacts_fsWrite_mono d f c w n h⟩

/-- A step of the recovery machinery: it may add files, but only
snapshot files under the fixed `recovery` directory (never failure
documents); no implicit-capture event is recorded and artifacts on disk
stay on disk. -/
def RecStep (w wA : World) : Prop :=
  (∀ r ∈ wA.fs, r ∈ w.fs ∨ (r.dir = "recovery" ∧ isFailureRec r = false))
  ∧ CapStep w wA

theorem RecStep.stay (w : World) : RecStep w w :=
  ⟨fun _ h => Or.inl h, CapStep.base w⟩

theorem RecStep.join {w1 w2 w3 : World} (h1 : RecStep w1 w2)
    (h2 : RecStep w2 w3) : RecStep w1 w3 := by
  refine ⟨fun r hr => ?_, h1.2.comp h2.2⟩
  rcases h2.1 r hr with h | h
  · exact h1.1 r h
  · exact Or.inr h

theorem RecStep_of_PageOnly {w wA : World} (h : PageOnly w wA) : RecStep w wA :=
  ⟨fun _ hr => Or.inl (h.1 ▸ hr), CapStep_of_PageOnly h⟩

theorem RecStep_fsWrite_recovery (f : String) (c : FC)
    (hc : isFailureRec ⟨"recovery", f, c⟩ = false) (w : World) :
    RecStep w (fsWrite "recovery" f c w) := by
  refine ⟨fun r hr => ?_, CapStep_fsWrite _ _ _ w⟩
  rcases fsWrite_mem _ _ _ _ hr with h | h
  · exact Or.inl h
  · rw [h]
    exact Or.inr ⟨rfl, hc⟩

theorem Fempty_of_RecStep {w wA : World} (hr : RecStep w wA) (h : Fempty w) :
    Fempty wA := by
  intro r hrm
  rcases hr.1 r hrm with h1 | h1
  · exact h r h1
  · exact h1.2

theorem cds_recStep (o : Oracle) (w : World) :
    RecStep w (captureDomSummary o w) := by
  rw [captureDomSummary]
  have h0 : RecStep w (opShot o "recovery" w).2 :=
    RecStep_of_PageOnly (po_opShot o "recovery" w)
  set rs := opShot o "recovery" w with hrs
  clear_value rs
  have h1 : RecStep w (if rs.1 = true then
      fsWrite "recovery" ("screenshot-" ++ toString rs.2.clock ++ ".jpg") FC.jpg rs.2
    else rs.2) := by
    by_cases hb : rs.1 = true
    · rw [if_pos hb]
      exact h0.join (RecStep_fsWrite_recovery _ _ (by rfl) rs.2)
    · rw [if_neg hb]
      exact h0
  set wmid := (if rs.1 = true then
      fsWrite "recovery" ("screenshot-" ++ toString rs.2.clock ++ ".jpg") FC.jpg rs.2
    else rs.2) with hwmid
  clear_value wmid
  have h2 : RecStep w (tick (tick (tick wmid))) :=
    h1.join (RecStep_of_PageOnly (((po_tick wmid).chain (po_tick _)).chain (po_tick _)))
  exact h2.join (RecStep_fsWrite_recovery _ _ (by rfl) _)

theorem sc_capStep (o : Oracle) (taskId ckptName : String) (ai : Nat)
    (action : Option PlanAction) (selU : Option String) (conf : Option Nat)
    (w : World) :
    CapStep w (saveCheckpoint o taskId ckptName ai action selU conf w) :=
  ⟨fun n => sc_countIC o taskId ckptName ai action selU conf w n,
   fun n h => sc_hasArtifacts_mono o taskId ckptName ai action selU conf w n h⟩

theorem ea_capStep (o : Oracle) (taskId name : String) (conf : Option Nat)
    (a : PlanAction) (prev : Option PlanAction) (ai : Nat)
    (last : Option String) (w : World) :
    CapStep w (execAction o taskId name conf a prev ai last w).2 := by
  rw [execAction.eq_def]
  by_cases h1 : a.type = some "waitForSelector"
  · rw [if_pos h1]
    exact CapStep_of_PageOnly (po_execWaitForSelector o a w)
  · rw [if_neg h1]
    by_cases h2 : a.type = some "click"
    · rw [if_pos h2]
      exact CapStep_of_PageOnly (po_execClick o a _ last w)
    · rw [if_neg h2]
      by_cases h3 : a.type = some "fill"
      · rw [if_pos h3]
        exact CapStep_of_PageOnly (po_execFill o a _ last w)
      · rw [if_neg h3]
        by_cases h4 : a.type = some "waitForTimeout"
        · rw [if_pos h4]
          exact CapStep_of_PageOnly (po_tick w)
        · rw [if_neg h4]
          by_cases h5 : a.type = some "goto"
          · rw [if_pos h5]
            exact CapStep_of_PageOnly (po_execGoto o a w)
          · rw [if_neg h5]
            by_cases h6 : a.type = some "screenshot"
            · rw [if_pos h6]
              exact sc_capStep o taskId _ ai (some a) last conf w
            · rw [if_neg h6]
              exact CapStep.base w

theorem ea_Fempty (o : Oracle) (taskId name : String) (conf : Option Nat)
    (a : PlanAction) (prev : Option PlanAction) (ai : Nat)
    (last : Option String) (w : World) (h : Fempty w) :
    Fempty (execAction o taskId name conf a prev ai last w).2 := by
  rw [execAction.eq_def]
  by_cases h1 : a.type = some "waitForSelector"
  · rw [if_pos h1]
    exact Fempty_of_PageOnly (po_execWaitForSelector o a w) h
  · rw [if_neg h1]
    by_cases h2 : a.type = some "click"
    · rw [if_pos h2]
      exact Fempty_of_PageOnly (po_execClick o a _ last w) h
    · rw [if_neg h2]
      by_cases h3 : a.type = some "fill"
      · rw [if_pos h3]
        exact Fempty_of_PageOnly (po_execFill o a _ last w) h
      · rw [if_neg h3]
        by_cases h4 : a.type = some "waitForTimeout"
        · rw [if_pos h4]
          exact Fempty_of_PageOnly (po_tick w) h
        · rw [if_neg h4]
          by_cases h5 : a.type = some "goto"
          · rw [if_pos h5]
            exact Fempty_of_PageOnly (po_execGoto o a w) h
          · rw [if_neg h5]
            by_cases h6 : a.type = some "screenshot"
            · rw [if_pos h6]
              exact sc_Fempty o taskId _ ai (some a) last conf w h
            · rw [if_neg h6]
              exact h

theorem ea_mem (o : Oracle) (taskId name : String) (conf : Option Nat)
    (a : PlanAction) (prev : Option PlanAction) (ai : Nat)
    (last : Option String) (w : World) (r : FileRec)
    (h : r ∈ (execAction o taskId name conf a prev ai last w).2.fs) :
    r ∈ w.fs ∨ (a.type = some "screenshot"
      ∧ r.dir = (jsOrS a.checkpoint_name (some name)).getD name) := by
  rw [execAction.eq_def] at h
  by_cases h1 : a.type = some "waitForSelector"
  · rw [if_pos h1, (po_execWaitForSelector o a w).1] at h
    exact Or.inl h
  · rw [if_neg h1] at h
    by_cases h2 : a.type = some "click"
    · rw [if_pos h2, (po_execClick o a _ last w).1] at h
      exact Or.inl h
    · rw [if_neg h2] at h
      by_cases h3 : a.type = some "fill"
      · rw [if_pos h3, (po_execFill o a _ last w).1] at h
        exact Or.inl h
      · rw [if_neg h3] at h
        by_cases h4 : a.type = some "waitForTimeout"
        · rw [if_pos h4] at h
          exact Or.inl h
        · rw [if_neg h4] at h
          by_cases h5 : a.type = some "goto"
          · rw [if_pos h5, (po_execGoto o a w).1] at h
            exact Or.inl h
          · rw [if_neg h5] at h
            by_cases h6 : a.type = some "screenshot"
            · rw [if_pos h6] at h
              rcases sc_mem o taskId _ ai (some a) last conf w r h with hm | hm
              · exact Or.inl hm
              · exact Or.inr ⟨h6, hm⟩
            · rw [if_neg h6] at h
              exact Or.inl h

theorem rf_shape (o : Oracle) (tid name : String) (a : PlanAction) (ai : Nat)
    (err : String) (w : World) :
    ∃ wMid, RecStep w wMid ∧
      ((∃ c, recoveryFlow o tid name a ai err w = (.ok (some c), wMid))
        ∨ recoveryFlow o tid name a ai err w
            = (.error (abortMsg name ai err),
               fsWrite name "failure.json"
                 (.failure ⟨tid, name, ai, some a, err,
                   o.url wMid.clock, wMid.clock⟩) wMid)) := by
  rw [recoveryFlow]
  dsimp only
  set rp := askPlannerForRecovery o (captureDomSummary o (tick w)) with hrp
  clear_value rp
  have hpo0 : RecStep w rp.2 := by
    rw [hrp]
    exact ((RecStep_of_PageOnly (po_tick w)).join (cds_recStep o (tick w))).join
      (RecStep_of_PageOnly (po_askPlanner o _))
  cases hc : rp.1 with
  | none =>
    dsimp only
    exact ⟨rp.2, hpo0, Or.inr rfl⟩
  | some l =>
    dsimp only
    set rfil := (if a.type = some "click" then
        filterSelectorsByCheck (isSelectorClickable o) l rp.2
      else if a.type = some "fill" then
        filterSelectorsByCheck (isSelectorFillable o) l rp.2
      else (l, rp.2)) with hrfil
    clear_value rfil
    have hpo1 : RecStep w rfil.2 := by
      rw [hrfil]
      by_cases h1 : a.type = some "click"
      · rw [if_pos h1]
        exact hpo0.join (RecStep_of_PageOnly (po_filter _ (po_isClickable o) l rp.2))
      · rw [if_neg h1]
        by_cases h2 : a.type = some "fill"
        · rw [if_pos h2]
          exact hpo0.join (RecStep_of_PageOnly (po_filter _ (po_isFillable o) l rp.2))
        · rw [if_neg h2]
          exact hpo0
    by_cases hcond : (a.type = some "click" ∨ a.type = some "fill") ∧ rfil.1 = []
    · rw [if_pos hcond]
      exact ⟨rfil.2, hpo1, Or.inr rfl⟩
    · rw [if_neg hcond]
      set rc := tryRecCands o a (orderByTextHint (textHintOf a) rfil.1) rfil.2 with hrc
      clear_value rc
      have hpo2 : RecStep w rc.2 := by
        rw [hrc]
        exact hpo1.join (RecStep_of_PageOnly (po_tryRecCands o a _ rfil.2))
      cases hacc : rc.1 with
      | some c =>
        dsimp only
        exact ⟨rc.2, hpo2, Or.inl ⟨c, rfl⟩⟩
      | none =>
        dsimp only
        exact ⟨rc.2, hpo2, Or.inr rfl⟩

theorem rf_capStep (o : Oracle) (tid name : String) (a : PlanAction) (ai : Nat)
    (err : String) (w : World) :
    CapStep w (recoveryFlow o tid name a ai err w).2 := by
  obtain ⟨wMid, hpo, ⟨c, heq⟩ | heq⟩ := rf_shape o tid name a ai err w
  · rw [heq]
    exact hpo.2
  · rw [heq]
    exact hpo.2.comp (CapStep_fsWrite _ _ _ _)

theorem rf_ok_spec (o : Oracle) (tid name : String) (a : PlanAction) (ai : Nat)
    (err : String) (w : World) (l : Option String)
    (h : (recoveryFlow o tid name a ai err w).1 = .ok l) :
    RecStep w (recoveryFlow o tid name a ai err w).2 := by
  obtain ⟨wMid, hpo, ⟨c, heq⟩ | heq⟩ := rf_shape o tid name a ai err w
  · rw [heq]
    exact hpo
  · rw [heq] at h
    exact absurd h (by simp)

theorem rf_err_spec (o : Oracle) (tid name : String) (a : PlanAction) (ai : Nat)
    (err : String) (w : World) (e : String)
    (h : (recoveryFlow o tid name a ai err w).1 = .error e) :
    e = abortMsg name ai err ∧
      (Fempty w → ∃ u t, failureFiles (recoveryFlow o tid name a ai err w).2
        = [⟨name, "failure.json", .failure ⟨tid, name, ai, some a, err, u, t⟩⟩]) := by
  obtain ⟨wMid, hpo, ⟨c, heq⟩ | heq⟩ := rf_shape o tid name a ai err w
  · rw [heq] at h
    exact absurd h (by simp)
  · rw [heq] at h ⊢
    refine ⟨by simpa using h.symm, fun hF => ?_⟩
    exact ⟨o.url wMid.clock, wMid.clock,
      failureFiles_fsWrite_failure _ _ _ _ (Fempty_of_RecStep hpo hF)⟩

theorem rf_mem (o : Oracle) (tid name : String) (a : PlanAction) (ai : Nat)
    (err : String) (w : World) (r : FileRec)
    (h : r ∈ (recoveryFlow o tid name a ai err w).2.fs) :
    r ∈ w.fs ∨ r.dir = name ∨ r.dir = "recovery" := by
  obtain ⟨wMid, hpo, ⟨c, heq⟩ | heq⟩ := rf_shape o tid name a ai err w
  · rw [heq] at h
    rcases hpo.1 r h with h1 | h1
    · exact Or.inl h1
    · exact Or.inr (Or.inr h1.1)
  · rw [heq] at h
    rcases fsWrite_mem _ _ _ _ h with h1 | h1
    · rcases hpo.1 r h1 with h2 | h2
      · exact Or.inl h2
      · exact Or.inr (Or.inr h2.1)
    · exact Or.inr (Or.inl (by rw [h1]))

/-! ## Action-loop lemmas -/

theorem ra_capStep (o : Oracle) (tid name : String) (conf : Option Nat)
    (acts : List (Option PlanAction)) (prev : Option PlanAction) (ai : Nat)
    (last : Option String) (w : World) :
    CapStep w (runActions o tid name conf acts prev ai last w).2 := by
  induction acts generalizing prev ai last w with
  | nil => exact CapStep.base w
  | cons oa rest ih =>
    cases oa with
    | none =>
      rw [runActions]
      exact ih none (ai + 1) last w
    | some a =>
      rw [runActions]
      rcases hea : execAction o tid name conf a prev ai last w with ⟨res, w1⟩
      have hcs1 : CapStep w w1 := by
        have := ea_capStep o tid name conf a prev ai last w
        rw [hea] at this
        exact this
      cases res with
      | ok r =>
        dsimp only
        exact hcs1.comp (ih (some a) (ai + 1) r.2 w1)
      | error err =>
        dsimp only
        rcases hrf : recoveryFlow o tid name a ai err w1 with ⟨res2, w2⟩
        have hcs2 : CapStep w1 w2 := by
          have := rf_capStep o tid name a ai err w1
          rw [hrf] at this
          exact this
        cases res2 with
        | ok lastR =>
          dsimp only
          exact (hcs1.comp hcs2).comp (ih (some a) (ai + 1) lastR w2)
        | error e =>
          dsimp only
          exact hcs1.comp hcs2

theorem ra_ok_Fempty (o : Oracle) (tid name : String) (conf : Option Nat)
    (acts : List (Option PlanAction)) (prev : Option PlanAction) (ai : Nat)
    (last : Option String) (w : World) (l : Option String)
    (hF : Fempty w)
    (h : (runActions o tid name conf acts prev ai last w).1 = .ok l) :
    Fempty (runActions o tid name conf acts prev ai last w).2 := by
  induction acts generalizing prev ai last w l with
  | nil => exact hF
  | cons oa rest ih =>
    cases oa with
    | none =>
      rw [runActions] at h ⊢
      exact ih none (ai + 1) last w l hF h
    | some a =>
      rw [runActions] at h ⊢
      rcases hea : execAction o tid name conf a prev ai last w with ⟨res, w1⟩
      rw [hea] at h
      have hF1 : Fempty w1 := by
        have hh := ea_Fempty o tid name conf a prev ai last w hF
        rw [hea] at hh
        exact hh
      cases res with
      | ok r =>
        dsimp only at h ⊢
        exact ih (some a) (ai + 1) r.2 w1 l hF1 h
      | error err =>
        dsimp only at h ⊢
        rcases hrf : recoveryFlow o tid name a ai err w1 with ⟨res2, w2⟩
        rw [hrf] at h
        cases res2 with
        | ok lastR =>
          dsimp only at h ⊢
          have hF2 : Fempty w2 := by
            have hpo := rf_ok_spec o tid name a ai err w1 lastR (by rw [hrf])
            rw [hrf] at hpo
            exact Fempty_of_RecStep hpo hF1
          exact ih (some a) (ai + 1) lastR w2 l hF2 h
        | error e =>
          dsimp only at h
          exact absurd h (by simp)

theorem ra_err_spec (o : Oracle) (tid name : String) (conf : Option Nat)
    (acts : List (Option PlanAction)) (prev : Option PlanAction) (ai : Nat)
    (last : Option String) (w : World) (e : String)
    (hF : Fempty w)
    (h : (runActions o tid name conf acts prev ai last w).1 = .error e) :
    ∃ ai2 a2 err2 u t, e = abortMsg name ai2 err2 ∧
      failureFiles (runActions o tid name conf acts prev ai last w).2
        = [⟨name, "failure.json", .failure ⟨tid, name, ai2, some a2, err2, u, t⟩⟩] := by
  induction acts generalizing prev ai last w with
  | nil => exact absurd h (by simp [runActions])
  | cons oa rest ih =>
    cases oa with
    | none =>
      rw [runActions] at h ⊢
      exact ih none (ai + 1) last w hF h
    | some a =>
      rw [runActions] at h ⊢
      rcases hea : execAction o tid name conf a prev ai last w with ⟨res, w1⟩
      rw [hea] at h
      have hF1 : Fempty w1 := by
        have hh := ea_Fempty o tid name conf a prev ai last w hF
        rw [hea] at hh
        exact hh
      cases res with
      | ok r =>
        dsimp only at h ⊢
        exact ih (some a) (ai + 1) r.2 w1 hF1 h
      | error err =>
        dsimp only at h ⊢
        rcases hrf : recoveryFlow o tid name a ai err w1 with ⟨res2, w2⟩
        rw [hrf] at h
        cases res2 with
        | ok lastR =>
          dsimp only at h ⊢
          have hF2 : Fempty w2 := by
            have hpo := rf_ok_spec o tid name a ai err w1 lastR (by rw [hrf])
            rw [hrf] at hpo
            exact Fempty_of_RecStep hpo hF1
          exact ih (some a) (ai + 1) lastR w2 hF2 h
        | error e2 =>
          dsimp only at h ⊢
          have hspec := rf_err_spec o tid name a ai err w1 e2 (by rw [hrf])
          obtain ⟨he2, hfail⟩ := hspec
          obtain ⟨u, t, hdoc⟩ := hfail hF1
          rw [hrf] at hdoc
          have hee : e2 = e := Except.error.inj h
          exact ⟨ai, a, err, u, t, by rw [← hee, he2], hdoc⟩

/-- Storage keys an explicit capture action of the list may write to. -/
def captureDirs (name : String) (acts : List (Option PlanAction)) : List String :=
  acts.filterMap (fun oa => oa.bind (fun a =>
    if a.type = some "screenshot"
    then some ((jsOrS a.checkpoint_name (some name)).getD name)
    else none))

theorem captureDirs_head {name x : String} {oa : Option PlanAction}
    {rest : List (Option PlanAction)} (h : x ∈ captureDirs name [oa]) :
    x ∈ captureDirs name (oa :: rest) := by
  simp only [captureDirs, List.filterMap_cons] at h ⊢
  cases hf : oa.bind (fun a => if a.type = some "screenshot"
      then some ((jsOrS a.checkpoint_name (some name)).getD name) else none) with
  | none => rw [hf] at h; simp at h
  | some v =>
    rw [hf] at h
    simp at h
    simp [h]

theorem captureDirs_tail {name x : String} {oa : Option PlanAction}
    {rest : List (Option PlanAction)} (h : x ∈ captureDirs name rest) :
    x ∈ captureDirs name (oa :: rest) := by
  simp only [captureDirs, List.filterMap_cons] at h ⊢
  cases hf : oa.bind (fun a => if a.type = some "screenshot"
      then some ((jsOrS a.checkpoint_name (some name)).getD name) else none) with
  | none => exact h
  | some v => exact List.mem_cons_of_mem v h

theorem ra_mem (o : Oracle) (tid name : String) (conf : Option Nat)
    (acts : List (Option PlanAction)) (prev : Option PlanAction) (ai : Nat)
    (last : Option String) (w : World) (r : FileRec)
    (h : r ∈ (runActions o tid name conf acts prev ai last w).2.fs) :
    r ∈ w.fs ∨ r.dir = name ∨ r.dir = "recovery"
      ∨ r.dir ∈ captureDirs name acts := by
  induction acts generalizing prev ai last w with
  | nil => exact Or.inl h
  | cons oa rest ih =>
    cases oa with
    | none =>
      rw [runActions] at h
      rcases ih none (ai + 1) last w h with h1 | h1 | h1 | h1
      · exact Or.inl h1
      · exact Or.inr (Or.inl h1)
      · exact Or.inr (Or.inr (Or.inl h1))
      · exact Or.inr (Or.inr (Or.inr (captureDirs_tail h1)))
    | some a =>
      rw [runActions] at h
      rcases hea : execAction o tid name conf a prev ai last w with ⟨res, w1⟩
      rw [hea] at h
      have hstep : ∀ r2 : FileRec, r2 ∈ w1.fs → r2 ∈ w.fs ∨ r2.dir ∈ captureDirs name [some a] := by
        intro r2 hr2
        have hm := ea_mem o tid name conf a prev ai last w r2 (by rw [hea]; exact hr2)
        rcases hm with hm | ⟨hty, hdir⟩
        · exact Or.inl hm
        · refine Or.inr ?_
          simp [captureDirs, hty, hdir]
      cases res with
      | ok rres =>
        dsimp only at h
        rcases ih (some a) (ai + 1) rres.2 w1 h with h1 | h1 | h1 | h1
        · rcases hstep r h1 with h2 | h2
          · exact Or.inl h2
          · exact Or.inr (Or.inr (Or.inr (captureDirs_head h2)))
        · exact Or.inr (Or.inl h1)
        · exact Or.inr (Or.inr (Or.inl h1))
        · exact Or.inr (Or.inr (Or.inr (captureDirs_tail h1)))
      | error err =>
        dsimp only at h
        rcases hrf : recoveryFlow o tid name a ai err w1 with ⟨res2, w2⟩
        rw [hrf] at h
        have hstep2 : ∀ r2 : FileRec, r2 ∈ w2.fs →
            r2 ∈ w.fs ∨ r2.dir = name ∨ r2.dir = "recovery"
              ∨ r2.dir ∈ captureDirs name [some a] := by
          intro r2 hr2
          have hm := rf_mem o tid name a ai err w1 r2 (by rw [hrf]; exact hr2)
          rcases hm with hm | hm | hm
          · rcases hstep r2 hm with h2 | h2
            · exact Or.inl h2
            · exact Or.inr (Or.inr (Or.inr h2))
          · exact Or.inr (Or.inl hm)
          · exact Or.inr (Or.inr (Or.inl hm))
        cases res2 with
        | ok lastR =>
          dsimp only at h
          rcases ih (some a) (ai + 1) lastR w2 h with h1 | h1 | h1 | h1
          · rcases hstep2 r h1 with h2 | h2 | h2 | h2
            · exact Or.inl h2
            · exact Or.inr (Or.inl h2)
            · exact Or.inr (Or.inr (Or.inl h2))
            · exact Or.inr (Or.inr (Or.inr (captureDirs_head h2)))
          · exact Or.inr (Or.inl h1)
          · exact Or.inr (Or.inr (Or.inl h1))
          · exact Or.inr (Or.inr (Or.inr (captureDirs_tail h1)))
        | error e2 =>
          dsimp only at h
          rcases hstep2 r h with h2 | h2 | h2 | h2
          · exact Or.inl h2
          · exact Or.inr (Or.inl h2)
          · exact Or.inr (Or.inr (Or.inl h2))
          · exact Or.inr (Or.inr (Or.inr (captureDirs_head h2)))

/-! ## Implicit-capture block lemmas -/

theorem countIC_emit_icap (n m : String) (w : World) :
    countIC n (emit (.implicitCap m) w).events
      = countIC n w.events + (if m = n then 1 else 0) := by
  simp only [countIC, emit, List.filter_append, List.length_append]
  by_cases h : m = n
  · simp [h]
  · simp [List.filter, h]

theorem blk_cases (o : Oracle) (tid name : String)
    (acts : List (Option PlanAction)) (last : Option String) (conf : Option Nat)
    (w : World) :
    (hasArtifacts name w = true
      ∧ implicitCaptureBlock o tid name acts last conf w = w)
    ∨ (hasArtifacts name w = false
      ∧ implicitCaptureBlock o tid name acts last conf w
        = fsWrite name ".screenshot_saved" .marker
            (saveCheckpoint o tid name (acts.length - 1) acts.getLast?.join
              last conf (emit (.implicitCap name) w))) := by
  rw [implicitCaptureBlock]
  by_cases h : hasArtifacts name w = true
  · refine Or.inl ⟨h, ?_⟩
    rw [if_neg]
    rw [hasArtifacts, Bool.or_eq_true, Bool.or_eq_true] at h
    rcases h with (h1 | h1) | h1 <;> simp [h1]
  · refine Or.inr ⟨by simpa using h, ?_⟩
    rw [if_pos]
    rw [hasArtifacts] at h
    simp only [Bool.or_eq_true, not_or] at h
    refine ⟨by simpa using h.1.1, by simpa using h.1.2, by simpa using h.2⟩

theorem blk_countIC (o : Oracle) (tid name : String)
    (acts : List (Option PlanAction)) (last : Option String) (conf : Option Nat)
    (w : World) (n : String) :
    countIC n (implicitCaptureBlock o tid name acts last conf w).events
      = countIC n w.events
        + (if hasArtifacts name w = false ∧ n = name then 1 else 0) := by
  rcases blk_cases o tid name acts last conf w with ⟨h1, h2⟩ | ⟨h1, h2⟩
  · rw [h2]
    simp [h1]
  · rw [h2, fsWrite_events, sc_countIC, countIC_emit_icap]
    by_cases hn : n = name
    · simp [h1, hn]
    · have : ¬ (name = n) := fun hc => hn hc.symm
      simp [h1, hn, this]

theorem blk_hasArtifacts_mono (o : Oracle) (tid name : String)
    (acts : List (Option PlanAction)) (last : Option String) (conf : Option Nat)
    (w : World) (n : String) (h : hasArtifacts n w = true) :
    hasArtifacts n (implicitCaptureBlock o tid name acts last conf w) = true := by
  rcases blk_cases o tid name acts last conf w with ⟨h1, h2⟩ | ⟨h1, h2⟩
  · rw [h2]; exact h
  · rw [h2]
    refine hasArtifacts_fsWrite_mono _ _ _ _ n (sc_hasArtifacts_mono _ _ _ _ _ _ _ _ n ?_)
    rw [hasArtifacts] at h ⊢
    simpa [fsHas, fsHasPng, emit] using h

theorem blk_establishes (o : Oracle) (tid name : String)
    (acts : List (Option PlanAction)) (last : Option String) (conf : Option Nat)
    (w : World) :
    hasArtifacts name (implicitCaptureBlock o tid name acts last conf w) = true := by
  rcases blk_cases o tid name acts last conf w with ⟨h1, h2⟩ | ⟨h1, h2⟩
  · rw [h2]; exact h1
  · rw [h2]
    have hmeta : fsHas (saveCheckpoint o tid name (acts.length - 1) acts.getLast?.join
        last conf (emit (.implicitCap name) w)) name "meta.json" = true :=
      sc_meta_present _ _ _ _ _ _ _ _
    rw [hasArtifacts, Bool.or_eq_true, Bool.or_eq_true]
    exact Or.inl (Or.inl (fsHas_fsWrite_mono _ _ _ _ _ _ hmeta))

theorem blk_Fempty (o : Oracle) (tid name : String)
    (acts : List (Option PlanAction)) (last : Option String) (conf : Option Nat)
    (w : World) (h : Fempty w) :
    Fempty (implicitCaptureBlock o tid name acts last conf w) := by
  rcases blk_cases o tid name acts last conf w with ⟨h1, h2⟩ | ⟨h1, h2⟩
  · rw [h2]; exact h
  · rw [h2]
    refine Fempty_fsWrite _ _ _ _ (by rfl) (sc_Fempty _ _ _ _ _ _ _ _ ?_)
    intro r hr
    exact h r hr

theorem blk_mem (o : Oracle) (tid name : String)
    (acts : List (Option PlanAction)) (last : Option String) (conf : Option Nat)
    (w : World) (r : FileRec)
    (h : r ∈ (implicitCaptureBlock o tid name acts last conf w).fs) :
    r ∈ w.fs ∨ r.dir = name := by
  rcases blk_cases o tid name acts last conf w with ⟨h1, h2⟩ | ⟨h1, h2⟩
  · rw [h2] at h; exact Or.inl h
  · rw [h2] at h
    rcases fsWrite_mem _ _ _ _ h with hm | hm
    · rcases sc_mem _ _ _ _ _ _ _ _ _ hm with hm2 | hm2
      · exact Or.inl hm2
      · exact Or.inr hm2
    · exact Or.inr (by rw [hm])

/-! ## Checkpoint-level and run-level lemmas -/

/-- The dedup invariant of implicit captures for one checkpoint key:
at most one implicit capture has happened, and if one has, its
artifacts are still on disk. -/
def ICInv (n : String) (w : World) : Prop :=
  countIC n w.events ≤ 1
  ∧ (countIC n w.events = 1 → hasArtifacts n w = true)

theorem ICInv_of_capStep {n : String} {w wA : World} (hc : CapStep w wA)
    (h : ICInv n w) : ICInv n wA := by
  refine ⟨by rw [hc.1 n]; exact h.1, fun h1 => ?_⟩
  rw [hc.1 n] at h1
  exact hc.2 n (h.2 h1)

theorem roc_ICInv (o : Oracle) (tid : String) (conf : Option Nat)
    (c : Checkpoint) (w : World) (n : String) (h : ICInv n w) :
    ICInv n (runOneCheckpoint o tid conf c w).2 := by
  rw [runOneCheckpoint]
  rcases hra : runActions o tid (checkpointDirName c) conf
    (c.action_sequence.getD []) none 0 none w with ⟨res, w1⟩
  have hcs : CapStep w w1 := by
    have hh := ra_capStep o tid (checkpointDirName c) conf
      (c.action_sequence.getD []) none 0 none w
    rw [hra] at hh
    exact hh
  have h1 : ICInv n w1 := ICInv_of_capStep hcs h
  cases res with
  | error e =>
    dsimp only
    exact h1
  | ok last =>
    dsimp only
    set name := checkpointDirName c with hname
    rcases blk_cases o tid name (c.action_sequence.getD []) last conf w1
      with ⟨hb1, hb2⟩ | ⟨hb1, hb2⟩
    · rw [hb2]
      exact h1
    · constructor
      · rw [blk_countIC]
        by_cases hn : n = name
        · have hz : countIC n w1.events = 0 := by
            rcases Nat.lt_or_ge (countIC n w1.events) 1 with hlt | hge
            · omega
            · have : countIC n w1.events = 1 := Nat.le_antisymm h1.1 hge
              have := h1.2 this
              rw [hn] at this
              rw [this] at hb1
              exact absurd hb1 (by simp)
          rw [hn] at hz
          simp [hb1, hn, hz]
        · simp [hn]
          exact h1.1
      · intro hcount
        by_cases hn : n = name
        · rw [hn]
          exact blk_establishes o tid name (c.action_sequence.getD []) last conf w1
        · rw [blk_countIC] at hcount
          simp only [hn, and_false, if_false, Nat.add_zero] at hcount
          exact blk_hasArtifacts_mono o tid name (c.action_sequence.getD []) last conf w1 n
            (h1.2 hcount)

theorem rc_ICInv (o : Oracle) (tid : String) (conf : Option Nat)
    (cks : List Checkpoint) (w : World) (n : String) (h : ICInv n w) :
    ICInv n (runCheckpoints o tid conf cks w).2 := by
  induction cks generalizing w with
  | nil => exact h
  | cons c rest ih =>
    rw [runCheckpoints]
    rcases hc : runOneCheckpoint o tid conf c w with ⟨res, w1⟩
    have h1 : ICInv n w1 := by
      have hh := roc_ICInv o tid conf c w n h
      rw [hc] at hh
      exact hh
    cases res with
    | ok u =>
      dsimp only
      exact ih w1 h1
    | error e =>
      dsimp only
      exact h1

theorem roc_ok_Fempty (o : Oracle) (tid : String) (conf : Option Nat)
    (c : Checkpoint) (w : World) (u : Unit) (hF : Fempty w)
    (h : (runOneCheckpoint o tid conf c w).1 = .ok u) :
    Fempty (runOneCheckpoint o tid conf c w).2 := by
  rw [runOneCheckpoint] at h ⊢
  generalize hra : runActions o tid (checkpointDirName c) conf
    (c.action_sequence.getD []) none 0 none w = rr at h ⊢
  obtain ⟨res, w1⟩ := rr
  cases res with
  | ok last =>
    dsimp only
    have hF1 : Fempty w1 := by
      have hh := ra_ok_Fempty o tid (checkpointDirName c) conf
        (c.action_sequence.getD []) none 0 none w last hF (by rw [hra])
      rw [hra] at hh
      exact hh
    exact blk_Fempty _ _ _ _ _ _ _ hF1
  | error e =>
    dsimp only at h
    exact absurd h (by simp)

theorem roc_err_spec (o : Oracle) (tid : String) (conf : Option Nat)
    (c : Checkpoint) (w : World) (e : String) (hF : Fempty w)
    (h : (runOneCheckpoint o tid conf c w).1 = .error e) :
    ∃ ai2 a2 err2 u t, e = abortMsg (checkpointDirName c) ai2 err2 ∧
      failureFiles (runOneCheckpoint o tid conf c w).2
        = [⟨checkpointDirName c, "failure.json",
            .failure ⟨tid, checkpointDirName c, ai2, some a2, err2, u, t⟩⟩] := by
  rw [runOneCheckpoint] at h ⊢
  generalize hra : runActions o tid (checkpointDirName c) conf
    (c.action_sequence.getD []) none 0 none w = rr at h ⊢
  obtain ⟨res, w1⟩ := rr
  cases res with
  | ok last =>
    dsimp only at h
    exact absurd h (by simp)
  | error e2 =>
    dsimp only at h ⊢
    have hspec := ra_err_spec o tid (checkpointDirName c) conf
      (c.action_sequence.getD []) none 0 none w e2 hF (by rw [hra])
    obtain ⟨ai2, a2, err2, u, t, he, hdoc⟩ := hspec
    rw [hra] at hdoc
    have hee : e2 = e := Except.error.inj h
    exact ⟨ai2, a2, err2, u, t, by rw [← hee, he], hdoc⟩

theorem roc_mem (o : Oracle) (tid : String) (conf : Option Nat)
    (c : Checkpoint) (w : World) (r : FileRec)
    (h : r ∈ (runOneCheckpoint o tid conf c w).2.fs) :
    r ∈ w.fs ∨ r.dir = checkpointDirName c ∨ r.dir = "recovery"
      ∨ r.dir ∈ captureDirs (checkpointDirName c) (c.action_sequence.getD []) := by
  rw [runOneCheckpoint] at h
  generalize hra : runActions o tid (checkpointDirName c) conf
    (c.action_sequence.getD []) none 0 none w = rr at h
  obtain ⟨res, w1⟩ := rr
  cases res with
  | ok last =>
    dsimp only at h
    rcases blk_mem _ _ _ _ _ _ _ _ h with h1 | h1
    · exact ra_mem o tid (checkpointDirName c) conf
        (c.action_sequence.getD []) none 0 none w r (by rw [hra]; exact h1)
    · exact Or.inr (Or.inl h1)
  | error e =>
    dsimp only at h
    exact ra_mem o tid (checkpointDirName c) conf
      (c.action_sequence.getD []) none 0 none w r (by rw [hra]; exact h)

theorem rc_append_error (o : Oracle) (tid : String) (conf : Option Nat)
    (cks rest : List Checkpoint) (w : World) (e : String) (wA : World)
    (h : runCheckpoints o tid conf cks w = (.error e, wA)) :
    runCheckpoints o tid conf (cks ++ rest) w = (.error e, wA) := by
  induction cks generalizing w with
  | nil =>
    rw [runCheckpoints] at h
    exact absurd h (by simp)
  | cons c rest2 ih =>
    rw [runCheckpoints] at h
    rw [List.cons_append, runCheckpoints]
    generalize hc : runOneCheckpoint o tid conf c w = rr at h ⊢
    obtain ⟨res, w1⟩ := rr
    cases res with
    | ok u =>
      dsimp only at h ⊢
      exact ih w1 h
    | error e2 =>
      dsimp only at h ⊢
      exact h

theorem rc_ok_Fempty (o : Oracle) (tid : String) (conf : Option Nat)
    (cks : List Checkpoint) (w : World) (u : Unit) (hF : Fempty w)
    (h : (runCheckpoints o tid conf cks w).1 = .ok u) :
    Fempty (runCheckpoints o tid conf cks w).2 := by
  induction cks generalizing w with
  | nil => exact hF
  | cons c rest ih =>
    rw [runCheckpoints] at h ⊢
    generalize hc : runOneCheckpoint o tid conf c w = rr at h ⊢
    obtain ⟨res, w1⟩ := rr
    cases res with
    | ok u2 =>
      dsimp only at h ⊢
      have hF1 : Fempty w1 := by
        have hh := roc_ok_Fempty o tid conf c w u2 hF (by rw [hc])
        rw [hc] at hh
        exact hh
      exact ih w1 hF1 h
    | error e =>
      dsimp only at h
      exact absurd h (by simp)

theorem rc_err_spec (o : Oracle) (tid : String) (conf : Option Nat)
    (cks : List Checkpoint) (w : World) (e : String) (hF : Fempty w)
    (h : (runCheckpoints o tid conf cks w).1 = .error e) :
    ∃ name2 ai2 a2 err2 u t,
      (∃ c ∈ cks, name2 = checkpointDirName c) ∧
      e = abortMsg name2 ai2 err2 ∧
      failureFiles (runCheckpoints o tid conf cks w).2
        = [⟨name2, "failure.json",
            .failure ⟨tid, name2, ai2, some a2, err2, u, t⟩⟩] := by
  induction cks generalizing w with
  | nil => exact absurd h (by simp [runCheckpoints])
  | cons c rest ih =>
    rw [runCheckpoints] at h ⊢
    generalize hc : runOneCheckpoint o tid conf c w = rr at h ⊢
    obtain ⟨res, w1⟩ := rr
    cases res with
    | ok u2 =>
      dsimp only at h ⊢
      have hF1 : Fempty w1 := by
        have hh := roc_ok_Fempty o tid conf c w u2 hF (by rw [hc])
        rw [hc] at hh
        exact hh
      obtain ⟨n2, ai2, a2, err2, u, t, hmem, he, hdoc⟩ := ih w1 hF1 h
      exact ⟨n2, ai2, a2, err2, u, t,
        by obtain ⟨c2, hc2, hn2⟩ := hmem; exact ⟨c2, List.mem_cons_of_mem c hc2, hn2⟩,
        he, hdoc⟩
    | error e2 =>
      dsimp only at h ⊢
      have hspec := roc_err_spec o tid conf c w e2 hF (by rw [hc])
      obtain ⟨ai2, a2, err2, u, t, he, hdoc⟩ := hspec
      rw [hc] at hdoc
      have hee : e2 = e := Except.error.inj h
      exact ⟨checkpointDirName c, ai2, a2, err2, u, t,
        ⟨c, List.mem_cons_self c rest, rfl⟩, by rw [← hee, he], hdoc⟩

/-! ## Static-page evaluation lemmas -/

theorem isSelectorClickable_const (p : PageView) (s : String) (w : World)
    (hs : s ≠ "") :
    isSelectorClickable (constOracle p) s w = (clickableP p s, tick w) := by
  rw [isSelectorClickable, if_neg hs, clickableP, if_neg hs]
  rfl

theorem isSelectorFillable_const (p : PageView) (s : String) (w : World)
    (hs : s ≠ "") :
    isSelectorFillable (constOracle p) s w = (fillableP p s, tick w) := by
  rw [isSelectorFillable, if_neg hs, fillableP, if_neg hs]
  rfl

theorem matchedP_of_clickableP (p : PageView) (s : String)
    (h : clickableP p s = true) : matchedP p s = true := by
  rw [clickableP] at h
  by_cases hs : s = ""
  · rw [if_pos hs] at h
    exact absurd h (by simp)
  · rw [if_neg hs] at h
    rw [clickableCore] at h
    rw [matchedP]
    by_cases h1 : p.count s = 0
    · rw [if_pos h1] at h
      exact absurd h (by simp)
    · rw [if_neg h1] at h
      by_cases h2 : p.visible s = true
      · rw [if_neg (by simp [h2])] at h
        by_cases h3 : p.box s = true
        · simp [h1, h2, h3]
        · rw [if_pos (by simp [h3])] at h
          exact absurd h (by simp)
      · rw [if_pos (by simp [h2])] at h
        exact absurd h (by simp)

theorem filter_clickable_const (p : PageView) (l : List String) (w : World) :
    filterSelectorsByCheck (isSelectorClickable (constOracle p)) l w
      = (l.filter (fun s => decide (s ≠ "") && clickableP p s), tick^[neCount l] w) := by
  induction l generalizing w with
  | nil => simp [filterSelectorsByCheck, neCount]
  | cons s rest ih =>
    rw [filterSelectorsByCheck]
    by_cases hs : s = ""
    · rw [if_pos hs, ih w]
      rw [List.filter_cons_of_neg (by simp [hs])]
      have h2 : neCount (s :: rest) = neCount rest := by simp [neCount, hs]
      rw [h2]
    · rw [if_neg hs]
      rw [isSelectorClickable_const p s w hs]
      dsimp only
      rw [ih (tick w)]
      dsimp only
      have h2 : neCount (s :: rest) = neCount rest + 1 := by simp [neCount, hs]
      rw [h2, ← Function.iterate_succ_apply]
      cases hc : clickableP p s with
      | true =>
        rw [List.filter_cons_of_pos (by simp [hs, hc])]
        simp
      | false =>
        rw [List.filter_cons_of_neg (by simp [hc])]
        simp

theorem filter_fillable_const (p : PageView) (l : List String) (w : World) :
    filterSelectorsByCheck (isSelectorFillable (constOracle p)) l w
      = (l.filter (fun s => decide (s ≠ "") && fillableP p s), tick^[neCount l] w) := by
  induction l generalizing w with
  | nil => simp [filterSelectorsByCheck, neCount]
  | cons s rest ih =>
    rw [filterSelectorsByCheck]
    by_cases hs : s = ""
    · rw [if_pos hs, ih w]
      rw [List.filter_cons_of_neg (by simp [hs])]
      have h2 : neCount (s :: rest) = neCount rest := by simp [neCount, hs]
      rw [h2]
    · rw [if_neg hs]
      rw [isSelectorFillable_const p s w hs]
      dsimp only
      rw [ih (tick w)]
      dsimp only
      have h2 : neCount (s :: rest) = neCount rest + 1 := by simp [neCount, hs]
      rw [h2, ← Function.iterate_succ_apply]
      cases hc : fillableP p s with
      | true =>
        rw [List.filter_cons_of_pos (by simp [hs, hc])]
        simp
      | false =>
        rw [List.filter_cons_of_neg (by simp [hc])]
        simp

theorem filter_untruthy_id (check : String → World → Bool × World)
    (l : List String) (w : World) (h : ∀ s ∈ l, s = "") :
    filterSelectorsByCheck check l w = ([], w) := by
  induction l with
  | nil => rfl
  | cons s rest ih =>
    rw [filterSelectorsByCheck, if_pos (h s (List.mem_cons_self s rest))]
    exact ih (fun s2 hs2 => h s2 (List.mem_cons_of_mem s hs2))

theorem jsDedupPush_prefix (init : List String) (l : List String) :
    ∃ r, jsDedupPush init l = init ++ r := by
  induction l generalizing init with
  | nil => exact ⟨[], by simp [jsDedupPush]⟩
  | cons s rest ih =>
    rw [jsDedupPush, List.foldl_cons]
    by_cases hc : s ≠ "" ∧ s ∉ init
    · rw [if_pos hc]
      obtain ⟨r, hr⟩ := ih (init ++ [s])
      rw [jsDedupPush] at hr
      exact ⟨[s] ++ r, by rw [hr, List.append_assoc]⟩
    · rw [if_neg hc]
      obtain ⟨r, hr⟩ := ih init
      rw [jsDedupPush] at hr
      exact ⟨r, hr⟩

theorem jsDedupPush_nil_of_untruthy (l : List String) (h : ∀ s ∈ l, s = "") :
    jsDedupPush [] l = [] := by
  induction l with
  | nil => rfl
  | cons s rest ih =>
    rw [jsDedupPush, List.foldl_cons]
    have hs : s = "" := h s (List.mem_cons_self s rest)
    rw [if_neg (by simp [hs])]
    exact ih (fun s2 hs2 => h s2 (List.mem_cons_of_mem s hs2))

theorem filter_head?_eq_find? (p : String → Bool) (l : List String) :
    (l.filter p).head? = l.find? p := by
  induction l with
  | nil => rfl
  | cons s rest ih =>
    cases hp : p s with
    | true => rw [List.filter_cons_of_pos hp, List.find?_cons_of_pos _ hp]; rfl
    | false => rw [List.filter_cons_of_neg (by simp [hp]), List.find?_cons_of_neg _ (by simp [hp])]; exact ih

/-! ## Click-path characterizations on a static page -/

theorem execClickGo_spec (o : Oracle) (a : PlanAction) (su : Bool)
    (last2 : Option String) (chosen : String) (w : World)
    (hok : o.clickOk w.clock chosen = true) (hd : dialogTruthy a = none) :
    execClickGo o a su last2 chosen w
      = (.ok (some chosen,
          if (su && strTruthy last2 && decide (last2 = some chosen)) = true
          then none else some chosen),
         (opClick o chosen w).2) := by
  rw [execClickGo]
  dsimp only
  have h1 : (opClick o chosen w).1 = true := by
    rw [opClick]
    exact hok
  rw [if_neg (by simp [h1]), hd]

theorem execAction_click (o : Oracle) (tid nm : String) (conf : Option Nat)
    (a : PlanAction) (prev : Option PlanAction) (ai : Nat) (last : Option String)
    (w : World) (hty : a.type = some "click") :
    execAction o tid nm conf a prev ai last w
      = execClick o a
          ((match prev with
            | some p => decide (p.type = some "waitForSelector")
            | none => false) && strTruthy last) last w := by
  rw [execAction.eq_def]
  rw [if_neg (by rw [hty]; simp), if_pos hty]
  have hmid : (decide (a.type = some "click") || decide (a.type = some "fill")) = true := by
    simp [hty]
  rw [hmid]
  simp

theorem execClick_oneshot_used (p : PageView) (a : PlanAction) (A : String)
    (w : World) (hA : A ≠ "") (hcl : clickableP p A = true)
    (hok : p.clickOk A = true) (hd : a.expected_dialog = none) :
    (execClick (constOracle p) a true (some A) w).1 = .ok (some A, none) := by
  have hsA : strTruthy (some A) = true := by simp [strTruthy, hA]
  rw [execClick]
  rw [if_pos (show (true && strTruthy (some A)) = true by simp [hsA])]
  dsimp only
  simp only [Option.getD_some]
  simp only [isSelectorClickable_const p A w hA]
  simp only [hcl, if_true]
  rw [execClickTail]
  dsimp only
  rw [if_pos (show (true && strTruthy (some A)) = true by simp [hsA])]
  simp only [Option.getD_some]
  obtain ⟨r, hr⟩ := jsDedupPush_prefix [A] (selOrCands a)
  rw [List.singleton_append] at hr
  simp only [hr]
  rw [if_neg (show ¬ (A :: r = []) by simp)]
  rw [filter_clickable_const]
  dsimp only
  rw [List.filter_cons_of_pos (by simp [hA, hcl])]
  rw [if_neg (show ¬ (A :: List.filter (fun s => decide (s ≠ "") && clickableP p s) r = [])
    by simp)]
  rw [if_neg (show ¬ (A :: List.filter (fun s => decide (s ≠ "") && clickableP p s) r = [])
    by simp)]
  rw [trySelectorsSimple_head_const p A _ 12 _ (by omega) hA
    (matchedP_of_clickableP p A hcl)]
  dsimp only
  rw [execClickGo_spec _ a true (some A) A _ hok (by rw [dialogTruthy, hd])]
  dsimp only
  rw [if_pos (show (true && strTruthy (some A) && decide ((some A : Option String) = some A)) = true
    by simp [hsA])]

theorem execClickTail_none_fallthrough (p : PageView) (a : PlanAction) (c : String)
    (w : World)
    (hfind : (jsDedupPush [] (selOrCands a)).find?
        (fun s => decide (s ≠ "") && clickableP p s) = some c)
    (hok : p.clickOk c = true) (hd : a.expected_dialog = none) :
    (execClickTail (constOracle p) a true none w).1 = .ok (some c, some c) := by
  have hsf : strTruthy none = false := rfl
  rw [execClickTail]
  dsimp only
  rw [if_neg (show ¬ ((true && strTruthy none) = true) by simp [hsf])]
  have hmne : ¬ (jsDedupPush [] (selOrCands a) = []) := by
    intro hnil
    rw [hnil] at hfind
    simp at hfind
  rw [if_neg hmne]
  rw [filter_clickable_const]
  dsimp only
  have hhead : ((jsDedupPush [] (selOrCands a)).filter
      (fun s => decide (s ≠ "") && clickableP p s)).head? = some c := by
    rw [filter_head?_eq_find?]
    exact hfind
  rcases hfil : (jsDedupPush [] (selOrCands a)).filter
      (fun s => decide (s ≠ "") && clickableP p s) with _ | ⟨c2, t⟩
  · rw [hfil] at hhead
    simp at hhead
  · rw [hfil] at hhead
    have hc2 : c2 = c := by simpa using hhead
    subst hc2
    rw [if_neg (show ¬ (c2 :: t = []) by simp)]
    rw [if_neg (show ¬ (c2 :: t = []) by simp)]
    have hmem : c2 ∈ (jsDedupPush [] (selOrCands a)).filter
        (fun s => decide (s ≠ "") && clickableP p s) := by
      rw [hfil]
      exact List.mem_cons_self c2 t
    have hpred := List.of_mem_filter hmem
    simp only [Bool.and_eq_true, decide_eq_true_eq] at hpred
    have hcne : c2 ≠ "" := hpred.1
    have hccl : clickableP p c2 = true := hpred.2
    rw [trySelectorsSimple_head_const p c2 t 12 _ (by omega) hcne
      (matchedP_of_clickableP p c2 hccl)]
    dsimp only
    rw [execClickGo_spec _ a true none c2 _ hok (by rw [dialogTruthy, hd])]
    dsimp only
    rw [if_neg (show ¬ ((true && strTruthy none && decide ((none : Option String) = some c2)) = true)
      by simp [hsf])]

theorem execClick_notclickable (p : PageView) (a : PlanAction) (A c : String)
    (w : World) (hA : A ≠ "") (hncl : clickableP p A = false)
    (hfind : (jsDedupPush [] (selOrCands a)).find?
        (fun s => decide (s ≠ "") && clickableP p s) = some c)
    (hok : p.clickOk c = true) (hd : a.expected_dialog = none) :
    (execClick (constOracle p) a true (some A) w).1 = .ok (some c, some c) := by
  rw [execClick]
  rw [if_pos (show (true && strTruthy (some A)) = true by simp [strTruthy, hA])]
  dsimp only
  simp only [Option.getD_some, isSelectorClickable_const p A w hA, hncl]
  rw [if_neg (show ¬ (false = true) by simp)]
  exact execClickTail_none_fallthrough p a c (tick w) hfind hok hd

/-! ## Concrete worlds and pages for witnesses and counterexamples -/

/-- Fresh world: clock 0, empty outputs directory, empty trace. -/
def w0 : World := ⟨0, [], []⟩

/-- A static page where `#x` and `#y` are present, visible buttons and
everything else is absent. -/
def pageC5 : PageView where
  count := fun s => if s = "#x" ∨ s = "#y" then 1 else 0
  visible := fun s => s = "#x" ∨ s = "#y"
  box := fun _ => true
  enabled := fun _ => true
  evalOk := fun _ => true
  tag := fun _ => "button"
  role := fun _ => ""
  hasOnClick := fun _ => false
  hasTabIndex := fun _ => false
  contentEditable := fun _ => false
  clickOk := fun _ => true
  fillOk := fun _ => true
  focusOk := fun _ => true
  typeOk := true
  waitSel := fun _ => true
  gotoOk := fun _ => true
  shotOk := true
  url := "https://example.test"
  planner := none

/-- A static page where both `#a` (waited-for) and `#c` (declared) are
clickable buttons. -/
def pageC1a : PageView where
  count := fun s => if s = "#a" ∨ s = "#c" then 1 else 0
  visible := fun s => s = "#a" ∨ s = "#c"
  box := fun _ => true
  enabled := fun _ => true
  evalOk := fun _ => true
  tag := fun _ => "button"
  role := fun _ => ""
  hasOnClick := fun _ => false
  hasTabIndex := fun _ => false
  contentEditable := fun _ => false
  clickOk := fun _ => true
  fillOk := fun _ => true
  focusOk := fun _ => true
  typeOk := true
  waitSel := fun _ => true
  gotoOk := fun _ => true
  shotOk := true
  url := "https://example.test"
  planner := none

/-- A static page where `#a` is visible but a decorative `div` (not
clickable) while `#c` is a clickable button. -/
def pageC1b : PageView where
  count := fun s => if s = "#a" ∨ s = "#c" then 1 else 0
  visible := fun s => s = "#a" ∨ s = "#c"
  box := fun _ => true
  enabled := fun _ => true
  evalOk := fun _ => true
  tag := fun s => if s = "#c" then "button" else "div"
  role := fun _ => ""
  hasOnClick := fun _ => false
  hasTabIndex := fun _ => false
  contentEditable := fun _ => false
  clickOk := fun _ => true
  fillOk := fun _ => true
  focusOk := fun _ => true
  typeOk := true
  waitSel := fun _ => true
  gotoOk := fun _ => true
  shotOk := true
  url := "https://example.test"
  planner := none

/-- Click action declaring only `#c`. -/
def aC1 : PlanAction := { type := some "click", selector := some ["#c"] }

/-- The preceding wait action. -/
def pwWait : PlanAction := { type := some "waitForSelector", selector := some ["#a", "#b"] }

/-! ## Claim C5 -/

/-- C5 (Resolution priority): on a static page, `trySelectorsSimple`
returns exactly the first truthy candidate, in list order, that exists,
is visible and has a bounding box (first conjunct: the result equals
`find?` over the candidate list, so resolution is determined by list
position and never by latency); and, on an arbitrary time-varying page,
it returns none exactly when every truthy candidate failed its poll at
each of the `fuel` ticks of its own polling window (second conjunct,
whose windows follow the candidate order). -/
theorem spec_c5 :
    (∀ (p : PageView) (sels : List String) (fuel : Nat) (w : World), 0 < fuel →
      (trySelectorsSimple (constOracle p) sels fuel w).1
        = sels.find? (fun s => decide (s ≠ "") && matchedP p s))
    ∧ (∀ (o : Oracle) (sels : List String) (fuel : Nat) (w : World),
        (trySelectorsSimple o sels fuel w).1 = none ↔
          ∀ pre s post, sels = pre ++ s :: post → s ≠ "" →
            ∀ k < fuel, matchedAt o s (w.clock + fuel * neCount pre + k) = false) :=
  ⟨fun p sels fuel w h => trySelectorsSimple_const p sels fuel w h,
   fun o sels fuel w => trySelectorsSimple_none_iff o sels fuel w⟩

/-- Witness for C5: on the concrete page, with candidates
`["", "#z", "#x", "#y"]` (where `#x` and `#y` are both present), the
resolver picks `#x`, the first present candidate by position. -/
theorem spec_c5_witness :
    0 < 2
    ∧ (trySelectorsSimple (constOracle pageC5) ["", "#z", "#x", "#y"] 2 w0).1
        = (["", "#z", "#x", "#y"].find? (fun s => decide (s ≠ "") && matchedP pageC5 s))
    ∧ (trySelectorsSimple (constOracle pageC5) ["", "#z", "#x", "#y"] 2 w0).1 = some "#x" :=
  ⟨by decide,
   spec_c5.1 pageC5 ["", "#z", "#x", "#y"] 2 w0 (by decide),
   by decide⟩

/-! ## Claim C1 -/

/-- C1 (One-shot Selector Memory for Click): on a static page, for any
click action immediately preceded by a `waitForSelector` action whose
resolution `A` is remembered: (first conjunct) if `A` passes the
Clickable check then the click uses `A` — it is merged in front of the
declared candidates — and the memory is cleared after the use (the new
remembered selector is `none`); (second conjunct) if `A` fails the
Clickable check, the memory is discarded and the click resolves only
the action-declared candidates, using the first clickable one `c`, with
the memory then holding `c` as a plain last-used reference. -/
theorem spec_c1 :
    (∀ (p : PageView) (a pw : PlanAction) (A : String) (tid nm : String)
        (conf : Option Nat) (ai : Nat) (w : World),
      a.type = some "click" → a.expected_dialog = none →
      pw.type = some "waitForSelector" → A ≠ "" →
      clickableP p A = true → p.clickOk A = true →
      (execAction (constOracle p) tid nm conf a (some pw) ai (some A) w).1
        = .ok (some A, none))
    ∧ (∀ (p : PageView) (a pw : PlanAction) (A c : String) (tid nm : String)
        (conf : Option Nat) (ai : Nat) (w : World),
      a.type = some "click" → a.expected_dialog = none →
      pw.type = some "waitForSelector" → A ≠ "" →
      clickableP p A = false →
      (jsDedupPush [] (selOrCands a)).find?
        (fun s => decide (s ≠ "") && clickableP p s) = some c →
      p.clickOk c = true →
      (execAction (constOracle p) tid nm conf a (some pw) ai (some A) w).1
        = .ok (some c, some c)) := by
  constructor
  · intro p a pw A tid nm conf ai w hty hd hprev hA hcl hok
    rw [execAction_click _ _ _ _ a (some pw) ai (some A) w hty]
    rw [show ((match some pw with
        | some p2 => decide (p2.type = some "waitForSelector")
        | none => false) && strTruthy (some A)) = true by simp [hprev, strTruthy, hA]]
    exact execClick_oneshot_used p a A w hA hcl hok hd
  · intro p a pw A c tid nm conf ai w hty hd hprev hA hncl hfind hok
    rw [execAction_click _ _ _ _ a (some pw) ai (some A) w hty]
    rw [show ((match some pw with
        | some p2 => decide (p2.type = some "waitForSelector")
        | none => false) && strTruthy (some A)) = true by simp [hprev, strTruthy, hA]]
    exact execClick_notclickable p a A c w hA hncl hfind hok hd

/-- Witness for C1: concrete runs of both scenarios: with `#a` clickable
the click uses `#a` and clears the memory; with `#a` not clickable the
click falls through to the declared `#c`. -/
theorem spec_c1_witness :
    ((execAction (constOracle pageC1a) "task" "nm" none aC1 (some pwWait) 1
        (some "#a") w0).1 = .ok (some "#a", none))
    ∧ ((execAction (constOracle pageC1b) "task" "nm" none aC1 (some pwWait) 1
        (some "#a") w0).1 = .ok (some "#c", some "#c")) :=
  ⟨spec_c1.1 pageC1a aC1 pwWait "#a" "task" "nm" none 1 w0 rfl rfl rfl
      (by decide) (by decide) (by decide),
   spec_c1.2 pageC1b aC1 pwWait "#a" "#c" "task" "nm" none 1 w0 rfl rfl rfl
      (by decide) (by decide) (by decide) (by decide)⟩

/-! ## Claim C6 -/

/-- Recogniser of synthetic-keystroke events in the trace. -/
def isTypedEv : Ev → Bool
  | .typed _ _ => true
  | _ => false

/-- Fill action with an empty declared candidate list and keyboard
fallback permitted. -/
def aC6 : PlanAction :=
  { type := some "fill", selector := some [], text := some "hello",
    fallback_to_keyboard := some true }

/-- A page with no matching elements at all whose focused editable
region accepts synthetic keystrokes, and no recovery planner. -/
def pageC6 : PageView where
  count := fun _ => 0
  visible := fun _ => false
  box := fun _ => false
  enabled := fun _ => false
  evalOk := fun _ => true
  tag := fun _ => ""
  role := fun _ => ""
  hasOnClick := fun _ => false
  hasTabIndex := fun _ => false
  contentEditable := fun _ => false
  clickOk := fun _ => false
  fillOk := fun _ => false
  focusOk := fun _ => false
  typeOk := true
  waitSel := fun _ => false
  gotoOk := fun _ => false
  shotOk := true
  url := "https://example.test"
  planner := none

/-- One-checkpoint plan whose only action is `aC6`. -/
def planC6 : CheckpointedPlan :=
  { checkpoints := some [Checkpoint.mk (some "cp") (some [some aC6])] }

/-- Counterexample to C6: `Fill(refs=[], text="hello",
fallback_to_keyboard=true)` on a page with a focused editable region
does not type anything — the strict enforcement of a non-empty
fillable-filtered candidate list throws `fill: no fillable selector
matched` before `tryFillWithFallback` (and hence the keyboard last
resort) can run, leaving the world untouched; the whole run then aborts
with no synthetic keystroke ever recorded in the trace. -/
theorem spec_c6_cex :
    (execAction (constOracle pageC6) "task" "cp_checkpoint" none aC6 none 0 none w0).1
      = .error "fill: no fillable selector matched"
    ∧ (execAction (constOracle pageC6) "task" "cp_checkpoint" none aC6 none 0 none w0).2
      = w0
    ∧ (executeCheckpointedPlan (constOracle pageC6) planC6 none none w0).1
      = .error (abortMsg "cp_checkpoint" 0 "fill: no fillable selector matched")
    ∧ (executeCheckpointedPlan (constOracle pageC6) planC6 none none w0).2.events.all
        (fun e => !(isTypedEv e)) = true := by
  refine ⟨rfl, rfl, rfl, by decide⟩

/-- C6 (amended): (first conjunct) a Fill whose candidate list is empty
and whose one-shot memory is empty fails immediately with `fill: no
fillable selector matched` and leaves the world untouched — the
keyboard fallback is never consulted, because the strict enforcement of
a non-empty fillable-filtered list precedes `tryFillWithFallback`;
(second conjunct) the keyboard last resort lives inside
`tryFillWithFallback`: on a static page, when every candidate handed to
it is falsy or absent and keyboard fallback is permitted, it types the
payload into the currently focused element via synthetic keystrokes. -/
theorem spec_c6 :
    (∀ (o : Oracle) (a : PlanAction) (su : Bool) (w : World),
      selOrCands a = [] →
      execFill o a su none w = (.error "fill: no fillable selector matched", w))
    ∧ (∀ (p : PageView) (text : String) (l : List String) (w : World),
        (∀ s ∈ l, s = "" ∨ p.count s = 0) →
        tryFillWithFallback (constOracle p) text true l w
          = opType (constOracle p) text (tick^[neCount l] w)) := by
  constructor
  · intro o a su w hsel
    have hsu : (su && strTruthy none) = false := by simp [strTruthy]
    rw [execFill]
    dsimp only
    rw [hsu]
    simp only [Bool.false_eq_true, if_false]
    rw [execFillTail]
    dsimp only
    rw [hsu, hsel]
    simp only [Bool.false_eq_true, if_false]
    rfl
  · intro p text l w hl
    induction l generalizing w with
    | nil =>
      rw [tryFillWithFallback]
      rw [if_pos rfl]
      rw [show neCount [] = 0 from rfl]
      rfl
    | cons s rest ih =>
      rcases hl s (List.mem_cons_self s rest) with hs | hs
      · rw [tryFillWithFallback, if_pos hs]
        rw [ih w (fun s2 hs2 => hl s2 (List.mem_cons_of_mem s hs2))]
        have h2 : neCount (s :: rest) = neCount rest := by simp [neCount, hs]
        rw [h2]
      · by_cases hse : s = ""
        · rw [tryFillWithFallback, if_pos hse]
          rw [ih w (fun s2 hs2 => hl s2 (List.mem_cons_of_mem s hs2))]
          have h2 : neCount (s :: rest) = neCount rest := by simp [neCount, hse]
          rw [h2]
        · rw [tryFillWithFallback, if_neg hse]
          rw [if_pos (show (constOracle p).count w.clock s = 0 from hs)]
          rw [ih (tick w) (fun s2 hs2 => hl s2 (List.mem_cons_of_mem s hs2))]
          have h2 : neCount (s :: rest) = neCount rest + 1 := by simp [neCount, hse]
          rw [h2, ← Function.iterate_succ_apply]

/-- Witness for C6 (amended): the concrete empty-candidate fill errors
with the world unchanged, and the keyboard last resort types `hello`
into the focused element of the concrete page when the single candidate
`#gone` is absent. -/
theorem spec_c6_witness :
    execFill (constOracle pageC6) aC6 false none w0
      = (.error "fill: no fillable selector matched", w0)
    ∧ tryFillWithFallback (constOracle pageC6) "hello" true ["#gone"] w0
      = opType (constOracle pageC6) "hello" (tick^[neCount ["#gone"]] w0)
    ∧ (tryFillWithFallback (constOracle pageC6) "hello" true ["#gone"] w0).1 = true
    ∧ (tryFillWithFallback (constOracle pageC6) "hello" true ["#gone"] w0).2.events
      = [Ev.typed "hello" true] :=
  ⟨spec_c6.1 (constOracle pageC6) aC6 false w0 (by decide),
   spec_c6.2 pageC6 "hello" ["#gone"] w0 (by decide),
   by decide, by decide⟩

/-! ## Claim C9 -/

/-- Fill action declaring `#a` then `#b`. -/
def a9 : PlanAction :=
  { type := some "fill", selector := some ["#a", "#b"], text := some "v" }

/-- Static page where `#a` and `#b` are both fillable inputs but only
the fill on `#b` actually succeeds. -/
def pageC9 : PageView where
  count := fun s => if s = "#a" ∨ s = "#b" then 1 else 0
  visible := fun s => s = "#a" ∨ s = "#b"
  box := fun _ => true
  enabled := fun _ => true
  evalOk := fun _ => true
  tag := fun _ => "input"
  role := fun _ => ""
  hasOnClick := fun _ => false
  hasTabIndex := fun _ => false
  contentEditable := fun _ => false
  clickOk := fun _ => false
  fillOk := fun s => s = "#b"
  focusOk := fun _ => false
  typeOk := false
  waitSel := fun _ => true
  gotoOk := fun _ => false
  shotOk := true
  url := "https://example.test"
  planner := none

/-- Fill action with an expected dialog, for the dialog-retry path. -/
def a9d : PlanAction :=
  { type := some "fill", selector := some ["#a", "#b"], text := some "v",
    expected_dialog := some "#dlg" }

/-- Time-varying page for the dialog-retry path: `#a` and `#b` are both
fillable inputs throughout, `#a` never acquires a bounding box (so the
retry resolution skips it), and the fill on `#b` only starts succeeding
at tick 10 (after the direct attempt has already failed). -/
def oC9d : Oracle where
  count := fun _ s => if s = "#a" ∨ s = "#b" then 1 else 0
  visible := fun _ s => decide (s = "#a") || decide (s = "#b")
  box := fun _ s => decide (s = "#b")
  enabled := fun _ _ => true
  evalOk := fun _ _ => true
  tag := fun _ _ => "input"
  role := fun _ _ => ""
  hasOnClick := fun _ _ => false
  hasTabIndex := fun _ _ => false
  contentEditable := fun _ _ => false
  clickOk := fun _ _ => false
  fillOk := fun t s => decide (s = "#b") && decide (10 ≤ t)
  focusOk := fun _ _ => false
  typeOk := fun _ => false
  waitSel := fun _ _ => true
  gotoOk := fun _ _ => false
  shotOk := fun _ => true
  url := fun _ => "https://example.test"
  planner := fun _ => none

/-- C9 (Fill used-reference bookkeeping): (first conjunct) whenever a
fill without one-shot consumption (`shouldUse = false`) succeeds on the
direct path — the action declares no expected dialog, so the retry path
is closed — the recorded used reference and the new selector memory are
both `action.selector[0]` when that is truthy, falling back to the
previous memory, independently of which candidate actually received the
text; (second conjunct) a concrete run on `pageC9` where the fill that
succeeds is on `#b` (the trace shows the failed attempt on `#a` and the
successful one on `#b`) yet the recorded reference is `#a`; (third
conjunct) on the dialog-retry path the retried selector itself (`#b`)
is recorded even though `action.selector[0]` is `#a`. -/
theorem spec_c9 :
    (∀ (o : Oracle) (a : PlanAction) (last1 : Option String) (w : World)
        (r : Option String × Option String),
      a.expected_dialog = none →
      (execFillTail o a false last1 w).1 = .ok r →
      r = (jsOrS (a.selector.bind (fun l => l.head?)) last1,
           jsOrS (a.selector.bind (fun l => l.head?)) last1))
    ∧ ((execAction (constOracle pageC9) "task" "nm" none a9 none 0 none w0).1
        = .ok (some "#a", some "#a")
      ∧ (execAction (constOracle pageC9) "task" "nm" none a9 none 0 none w0).2.events
        = [Ev.fillAttempt "#a" "v" false, Ev.fillAttempt "#b" "v" true])
    ∧ ((execAction oC9d "task" "nm" none a9d none 0 none w0).1
        = .ok (some "#b", some "#b")
      ∧ a9d.selector = some ["#a", "#b"]) := by
  refine ⟨?_, ⟨rfl, rfl⟩, ⟨rfl, rfl⟩⟩
  intro o a last1 w r hd h
  rw [execFillTail] at h
  dsimp only at h
  simp only [Bool.false_and, Bool.false_eq_true, if_false] at h
  generalize hrf : filterSelectorsByCheck (isSelectorFillable o)
    (if jsDedupPush [] (selOrCands a) = [] then selOrCands a
     else jsDedupPush [] (selOrCands a)) w = rf at h
  obtain ⟨fl, w1⟩ := rf
  by_cases hfl : fl = []
  · rw [if_pos hfl] at h
    exact absurd h (by simp)
  · rw [if_neg hfl] at h
    dsimp only at h
    generalize hrw : tryFillWithFallback o (a.text.getD "")
      (a.fallback_to_keyboard.getD false) (if fl = [] then selOrCands a else fl) w1
      = rwv at h
    obtain ⟨ok1, w2⟩ := rwv
    cases ok1 with
    | true =>
      dsimp only at h
      have hr : fillRecordUsed a false last1 (jsDedupPush [] (selOrCands a)) = r :=
        Except.ok.inj h
      rw [fillRecordUsed] at hr
      rw [show (false && strTruthy last1
        && decide ((jsDedupPush [] (selOrCands a)).head? = last1)) = false by simp] at hr
      simp only [Bool.false_eq_true, if_false] at hr
      rw [← hr]
      cases a.selector <;> rfl
    | false =>
      dsimp only at h
      rw [show dialogTruthy a = none by rw [dialogTruthy, hd]] at h
      exact absurd h (by simp)

/-- Witness for C9: the bookkeeping rule applied to the concrete
`pageC9` run, whose direct fill succeeds: the recorded pair is
`selector[0] = #a` on both components. -/
theorem spec_c9_witness :
    a9.expected_dialog = none
    ∧ (execFillTail (constOracle pageC9) a9 false none w0).1 = .ok (some "#a", some "#a")
    ∧ ((some "#a", some "#a") : Option String × Option String)
        = (jsOrS (a9.selector.bind (fun l => l.head?)) none,
           jsOrS (a9.selector.bind (fun l => l.head?)) none) :=
  ⟨rfl, rfl, spec_c9.1 (constOracle pageC9) a9 none w0 (some "#a", some "#a") rfl rfl⟩

/-! ## Claim C7 -/

/-- Click action with a 2-character free-text field. -/
def aC7 : PlanAction :=
  { type := some "click", selector := some ["#btn"], text := some "ab" }

/-- Time-varying page for the text-fallback counterexample: `#btn` is a
clickable button at tick 0 only (so it passes the clickability filter
and then vanishes before resolution), and the synthesized has-text
locator accepts clicks. -/
def oC7 : Oracle where
  count := fun t s => if s = "#btn" ∧ t = 0 then 1 else 0
  visible := fun _ _ => true
  box := fun _ _ => true
  enabled := fun _ _ => true
  evalOk := fun _ _ => true
  tag := fun _ _ => "button"
  role := fun _ _ => ""
  hasOnClick := fun _ _ => false
  hasTabIndex := fun _ _ => false
  contentEditable := fun _ _ => false
  clickOk := fun _ s => decide (s = ":has-text(\"ab\")")
  fillOk := fun _ _ => false
  focusOk := fun _ _ => false
  typeOk := fun _ => false
  waitSel := fun _ _ => true
  gotoOk := fun _ _ => false
  shotOk := fun _ => true
  url := fun _ => "https://example.test"
  planner := fun _ => none

/-- Counterexample to C7: a click whose candidates fail to resolve and
whose free text `ab` has length 2 (≤ 2) nevertheless attempts — and
here succeeds with — the synthesized contains-text fallback
`:has-text("ab")`: the only guard on the live path is that the trimmed
text is non-empty, not that its length exceeds 2. -/
theorem spec_c7_cex :
    (execAction oC7 "task" "nm" none aC7 none 0 none w0).1
      = .ok (some ":has-text(\"ab\")", some ":has-text(\"ab\")")
    ∧ (jsTrim "ab").length = 2 := by
  exact ⟨rfl, by decide⟩

/-- C7 (amended): (first conjunct) the live click text fallback is
guarded only by the trimmed free text being non-empty: whenever the
action carries text with non-empty trim, the synthesized contains-text
locator is click-attempted regardless of its length (the trace records
the attempt); (second conjunct) with empty-trim (or absent) text no
fallback attempt happens and the world is untouched; (third conjunct)
the `length > 2` guard quoted by the spec lives only in the dead helper
`fallbackSelectors`, where a short cleaned hint (and short hint words)
contributes no text candidates at all. -/
theorem spec_c7 :
    (∀ (o : Oracle) (a : PlanAction) (w : World) (t : String),
      a.text = some t → jsTrim t ≠ "" →
      (clickTextFallback o a w).2.events
        = w.events ++ [Ev.clickAttempt (textLocOf t)
            (o.clickOk w.clock (textLocOf t))])
    ∧ (∀ (o : Oracle) (a : PlanAction) (w : World),
        (∀ t, a.text = some t → jsTrim t = "") →
        clickTextFallback o a w = (none, w))
    ∧ (∀ (o : Oracle) (sels : List String) (t : String) (w : World),
        jsTrim t ≠ "" → (stripQuotes (jsTrim t)).length ≤ 2 →
        (∀ pt ∈ jsSplitWs t, pt.length ≤ 2) →
        fallbackSelectors o sels (some t) w
          = trySelectorsSimple o
              (["button:has-text(\x27Create\x27)", "button:has-text(\x27+\x27)"]
                ++ sels.filter (fun s => s ≠ "")) 8 w) := by
  refine ⟨?_, ?_, ?_⟩
  · intro o a w t ht htrim
    rw [clickTextFallback, ht]
    dsimp only
    rw [if_neg htrim]
    cases hr : o.clickOk w.clock (textLocOf t) with
    | true => simp [opClick, hr, emit, tick]
    | false => simp [opClick, hr, emit, tick]
  · intro o a w h
    rw [clickTextFallback]
    cases ha : a.text with
    | none => rfl
    | some t =>
      dsimp only
      rw [if_pos (h t ha)]
  · intro o sels t w htrim hclean hparts
    rw [fallbackSelectors]
    have ht : t ≠ "" := by
      intro h
      rw [h] at htrim
      exact htrim rfl
    rw [if_pos ⟨ht, htrim⟩]
    dsimp only
    rw [if_neg (show ¬ (stripQuotes (jsTrim t)).length > 2 by omega)]
    have hfm : ((jsSplitWs t).take 3).filterMap
        (fun p => if p.length > 2 then some (":has-text(\"" ++ p ++ "\")") else none)
          = [] := by
      rw [List.filterMap_eq_nil]
      intro p hp
      have hle := hparts p (List.take_subset 3 (jsSplitWs t) hp)
      rw [if_neg (by omega)]
    rw [hfm]
    simp

/-- Witness for C7 (amended): the 2-character text `ab` triggers a
recorded fallback click attempt; whitespace-only text triggers none; and
the dead helper contributes no text candidates for the same short
hint. -/
theorem spec_c7_witness :
    (clickTextFallback oC7 aC7 w0).2.events
      = [] ++ [Ev.clickAttempt (textLocOf "ab") (oC7.clickOk w0.clock (textLocOf "ab"))]
    ∧ clickTextFallback oC7 { text := some " " } w0 = (none, w0)
    ∧ fallbackSelectors oC7 ["#s"] (some "ab") w0
      = trySelectorsSimple oC7
          (["button:has-text(\x27Create\x27)", "button:has-text(\x27+\x27)"]
            ++ ["#s"].filter (fun s => s ≠ "")) 8 w0 :=
  ⟨spec_c7.1 oC7 aC7 w0 "ab" rfl (by decide),
   spec_c7.2.1 oC7 { text := some " " } w0
     (fun t h2 => by rw [← Option.some.inj h2]; decide),
   spec_c7.2.2 oC7 ["#s"] "ab" w0 (by decide) (by decide) (by decide)⟩

/-! ## Claim C8 -/

theorem setDedupAux_subset (seen l : List String) (x : String)
    (h : x ∈ setDedupAux seen l) : x ∈ l := by
  induction l generalizing seen with
  | nil => simp [setDedupAux] at h
  | cons y ys ih =>
    rw [setDedupAux] at h
    by_cases hy : y ∈ seen
    · rw [if_pos hy] at h
      exact List.mem_cons_of_mem y (ih seen h)
    · rw [if_neg hy] at h
      rcases List.mem_cons.mp h with h1 | h1
      · rw [h1]
        exact List.mem_cons_self y ys
      · exact List.mem_cons_of_mem y (ih _ h1)

/-- Counterexample to C8: the string `#a` sits directly under the
reference-like key `selector`, yet the extractor returns no candidates
— only array values under such keys are harvested; the same string
wrapped in a one-element array is collected. -/
theorem spec_c8_cex :
    refKey "selector" = true
    ∧ extractRecoverySelectors (J.obj [("selector", J.str "#a")]) = none
    ∧ extractRecoverySelectors (J.obj [("selector", J.arr [J.str "#a"])])
      = some ["#a"] :=
  ⟨by decide, rfl, rfl⟩

/-- C8 (amended): (first conjunct) a string-typed value sitting under a
key — reference-like or not — contributes nothing (only array values
under reference-like keys are harvested); (second conjunct) an
extracted candidate list is capped at a dozen entries; (third conjunct)
every extracted candidate is non-empty and is the trim of a string
harvested by the recursive walk; (fourth conjunct) a failed
collaborator call and a walk that harvests nothing both degrade to no
candidates rather than raising. -/
theorem spec_c8 :
    (∀ (k : String) (s : String), collect (J.obj [(k, J.str s)]) = [])
    ∧ (∀ (j : J) (l : List String), extractRecoverySelectors j = some l →
        l.length ≤ 12)
    ∧ (∀ (j : J) (l : List String), extractRecoverySelectors j = some l →
        ∀ s ∈ l, s ≠ "" ∧ ∃ raw ∈ collect j, s = jsTrim raw)
    ∧ ((∀ (o : Oracle) (w : World), o.planner w.clock = none →
          (askPlannerForRecovery o w).1 = none)
      ∧ (∀ j : J, collect j = [] → extractRecoverySelectors j = none)) := by
  refine ⟨?_, ?_, ?_, ?_, ?_⟩
  · intro k s
    by_cases hk : refKey k = true
    · simp [collect, collectObj, hk]
    · simp [collect, collectObj, hk]
  · intro j l h
    rw [extractRecoverySelectors] at h
    by_cases hu : (((setDedup (collect j)).map jsTrim).filter
        (fun s => s ≠ "")).take 12 = []
    · rw [if_pos hu] at h
      exact absurd h (by simp)
    · rw [if_neg hu] at h
      have hl : l = (((setDedup (collect j)).map jsTrim).filter
          (fun s => s ≠ "")).take 12 := (Option.some.inj h).symm
      rw [hl]
      exact List.length_take_le 12 _
  · intro j l h s hs
    rw [extractRecoverySelectors] at h
    by_cases hu : (((setDedup (collect j)).map jsTrim).filter
        (fun s => s ≠ "")).take 12 = []
    · rw [if_pos hu] at h
      exact absurd h (by simp)
    · rw [if_neg hu] at h
      have hl : l = (((setDedup (collect j)).map jsTrim).filter
          (fun s => s ≠ "")).take 12 := (Option.some.inj h).symm
      rw [hl] at hs
      have hs2 := List.take_subset 12 _ hs
      have hs3 := List.mem_filter.mp hs2
      refine ⟨by simpa using hs3.2, ?_⟩
      obtain ⟨raw, hraw, hmap⟩ := List.mem_map.mp hs3.1
      exact ⟨raw, setDedupAux_subset [] _ raw hraw, hmap.symm⟩
  · intro o w h
    rw [askPlannerForRecovery, h]
  · intro j h
    rw [extractRecoverySelectors, h]
    rfl

/-- Concrete recovery response: one `selectors` array with a padded
duplicate and an empty entry. -/
def jC8 : J := J.obj [("selectors", J.arr [J.str " #a ", J.str "#a", J.str ""])]

/-- Witness for C8 (amended): the concrete response extracts
`["#a", "#a"]` (dedup happens before trim, so post-trim duplicates
survive), within the cap, and every entry is the trim of a harvested
raw string. -/
theorem spec_c8_witness :
    extractRecoverySelectors jC8 = some ["#a", "#a"]
    ∧ ["#a", "#a"].length ≤ 12
    ∧ (∀ s ∈ ["#a", "#a"], s ≠ "" ∧ ∃ raw ∈ collect jC8, s = jsTrim raw) :=
  ⟨rfl, spec_c8.2.1 jC8 ["#a", "#a"] rfl, spec_c8.2.2.1 jC8 ["#a", "#a"] rfl⟩

/-! ## Claim C4 -/

/-- Bare screenshot action (no explicit checkpoint-name override). -/
def aShot : PlanAction := { type := some "screenshot" }

/-- Static page that accepts screenshots. -/
def pageC4 : PageView where
  count := fun _ => 0
  visible := fun _ => false
  box := fun _ => false
  enabled := fun _ => false
  evalOk := fun _ => true
  tag := fun _ => ""
  role := fun _ => ""
  hasOnClick := fun _ => false
  hasTabIndex := fun _ => false
  contentEditable := fun _ => false
  clickOk := fun _ => false
  fillOk := fun _ => false
  focusOk := fun _ => false
  typeOk := false
  waitSel := fun _ => true
  gotoOk := fun _ => false
  shotOk := true
  url := "https://example.test"
  planner := none

/-- One checkpoint holding two explicit capture actions. -/
def planC4 : CheckpointedPlan :=
  { checkpoints := some [Checkpoint.mk (some "cp") (some [some aShot, some aShot])] }

/-- Counterexample to C4: a run of a single checkpoint containing two
explicit Capture actions produces two screenshot records under the same
checkpoint storage key `cp_checkpoint` — explicit captures are not
deduplicated, so a Checkpoint Record is not produced at most once per
checkpoint name. (The run still succeeds and the implicit capture is
correctly skipped afterwards: exactly zero implicit-capture events.) -/
theorem spec_c4_cex :
    ((executeCheckpointedPlan (constOracle pageC4) planC4 none none w0).2.fs.filter
        (fun r => decide (r.dir = "cp_checkpoint") && strEndsWith r.fname ".png")).length
      = 2
    ∧ countIC "cp_checkpoint"
        (executeCheckpointedPlan (constOracle pageC4) planC4 none none w0).2.events
      = 0 :=
  ⟨rfl, rfl⟩

/-- C4 (amended): the capture dedup applies to the implicit
end-of-checkpoint capture, not to explicit Capture actions:
(first conjunct) the implicit-capture block is a no-op whenever the
checkpoint key already has artifacts (metadata, a screenshot or the
marker); (second conjunct) when it has none, the block performs exactly
one implicit capture, writes the `.screenshot_saved` dedup marker and
establishes the artifacts; (third conjunct) over a whole run started
with an empty trace, at most one implicit capture ever happens per
checkpoint key. -/
theorem spec_c4 :
    (∀ (o : Oracle) (tid name : String) (acts : List (Option PlanAction))
        (last : Option String) (conf : Option Nat) (w : World),
      hasArtifacts name w = true →
      implicitCaptureBlock o tid name acts last conf w = w)
    ∧ (∀ (o : Oracle) (tid name : String) (acts : List (Option PlanAction))
        (last : Option String) (conf : Option Nat) (w : World),
      hasArtifacts name w = false →
      countIC name (implicitCaptureBlock o tid name acts last conf w).events
          = countIC name w.events + 1
        ∧ fsHas (implicitCaptureBlock o tid name acts last conf w)
            name ".screenshot_saved" = true
        ∧ hasArtifacts name (implicitCaptureBlock o tid name acts last conf w) = true)
    ∧ (∀ (o : Oracle) (tid : String) (conf : Option Nat) (cks : List Checkpoint)
        (w : World) (n : String),
      w.events = [] →
      countIC n (runCheckpoints o tid conf cks w).2.events ≤ 1) := by
  refine ⟨?_, ?_, ?_⟩
  · intro o tid name acts last conf w h
    rcases blk_cases o tid name acts last conf w with ⟨_, h2⟩ | ⟨h1, _⟩
    · exact h2
    · rw [h] at h1
      exact absurd h1 (by simp)
  · intro o tid name acts last conf w h
    refine ⟨?_, ?_, blk_establishes o tid name acts last conf w⟩
    · rw [blk_countIC]
      simp [h]
    · rcases blk_cases o tid name acts last conf w with ⟨h1, _⟩ | ⟨_, h2⟩
      · rw [h] at h1
        exact absurd h1 (by simp)
      · rw [h2]
        exact fsHas_fsWrite_self _ _ _ _
  · intro o tid conf cks w n hev
    have hinv : ICInv n w := by
      constructor
      · rw [countIC, hev]
        simp
      · intro h1
        rw [countIC, hev] at h1
        simp at h1
    exact (rc_ICInv o tid conf cks w n hinv).1

/-- A world already holding checkpoint artifacts for `cp_checkpoint`. -/
def w4 : World :=
  fsWrite "cp_checkpoint" "meta.json"
    (.meta ⟨"task", "cp_checkpoint", 0, none, none, none, "u", 0, none⟩) w0

/-- Witness for C4 (amended): with artifacts present the block is a
no-op on the concrete world; with none it captures once and writes the
marker; and the concrete two-capture run performs no implicit capture
at all. -/
theorem spec_c4_witness :
    hasArtifacts "cp_checkpoint" w4 = true
    ∧ implicitCaptureBlock (constOracle pageC4) "task" "cp_checkpoint" [] none none w4
      = w4
    ∧ hasArtifacts "cp_checkpoint" w0 = false
    ∧ countIC "cp_checkpoint"
        (implicitCaptureBlock (constOracle pageC4) "task" "cp_checkpoint" [] none none
          w0).events = countIC "cp_checkpoint" w0.events + 1
    ∧ w0.events = []
    ∧ countIC "cp_checkpoint"
        (runCheckpoints (constOracle pageC4) "task" none
          [Checkpoint.mk (some "cp") (some [some aShot, some aShot])] w0).2.events ≤ 1 :=
  ⟨by decide,
   spec_c4.1 (constOracle pageC4) "task" "cp_checkpoint" [] none none w4 (by decide),
   by decide,
   (spec_c4.2.1 (constOracle pageC4) "task" "cp_checkpoint" [] none none w0 (by decide)).1,
   rfl,
   spec_c4.2.2 (constOracle pageC4) "task" none
     [Checkpoint.mk (some "cp") (some [some aShot, some aShot])] w0 "cp_checkpoint" rfl⟩

/-! ## Claim C10 -/

/-- Screenshot action overriding the storage key with a raw name. -/
def aShotB : PlanAction := { type := some "screenshot", checkpoint_name := some "B" }

/-- Plan with one checkpoint named `A` whose only action is the
overriding capture. -/
def planC10 : CheckpointedPlan :=
  { checkpoints := some [Checkpoint.mk (some "A") (some [some aShotB])] }

/-- Counterexample to C10: inside checkpoint `A`, an explicit Capture
action carrying `checkpoint_name = "B"` persists its metadata and
screenshot under the raw directory `B` — no `_checkpoint` suffix is
appended to an explicit capture's override, so not all artifacts live
under suffixed checkpoint keys. -/
theorem spec_c10_cex :
    fsHas (executeCheckpointedPlan (constOracle pageC4) planC10 none none w0).2
        "B" "meta.json" = true
    ∧ strEndsWith "B" "_checkpoint" = false
    ∧ checkpointDirName (Checkpoint.mk (some "A") (some [some aShotB]))
      = "A_checkpoint" :=
  ⟨rfl, rfl, rfl⟩

/-- C10 (amended): (first two conjuncts) the storage key of a
checkpoint is its declared name with the literal `_checkpoint` suffix,
and a nameless checkpoint stores under `undefined_checkpoint` (no
index-based fallback); (third conjunct) every file a checkpoint run
adds lives under that suffixed key, under the fixed `recovery`
directory (the DOM-snapshot screenshot and summary persisted by a
recovery attempt), or under the directory of an explicit Capture
action of the checkpoint; (fourth conjunct) those capture directories
are exactly the `checkpoint_name` overrides of screenshot actions
(defaulting to the suffixed key when absent or falsy). -/
theorem spec_c10 :
    (∀ (nm : String) (acts2 : Option (List (Option PlanAction))),
      checkpointDirName (Checkpoint.mk (some nm) acts2) = nm ++ "_checkpoint")
    ∧ (∀ acts2 : Option (List (Option PlanAction)),
      checkpointDirName (Checkpoint.mk none acts2) = "undefined_checkpoint")
    ∧ (∀ (o : Oracle) (tid : String) (conf : Option Nat) (c : Checkpoint)
        (w : World) (r : FileRec),
      r ∈ (runOneCheckpoint o tid conf c w).2.fs →
      r ∈ w.fs ∨ r.dir = checkpointDirName c ∨ r.dir = "recovery"
        ∨ r.dir ∈ captureDirs (checkpointDirName c) (c.action_sequence.getD []))
    ∧ (∀ (name x : String) (acts : List (Option PlanAction)),
      x ∈ captureDirs name acts →
      ∃ a : PlanAction, some a ∈ acts ∧ a.type = some "screenshot"
        ∧ x = (jsOrS a.checkpoint_name (some name)).getD name) := by
  refine ⟨fun nm acts2 => rfl, fun acts2 => rfl, ?_, ?_⟩
  · intro o tid conf c w r h
    exact roc_mem o tid conf c w r h
  · intro name x acts h
    rw [captureDirs] at h
    obtain ⟨oa, hoa, hf⟩ := List.mem_filterMap.mp h
    cases oa with
    | none => exact absurd hf (by simp)
    | some a =>
      simp only [Option.some_bind] at hf
      by_cases hty : a.type = some "screenshot"
      · rw [if_pos hty] at hf
        exact ⟨a, hoa, hty, (Option.some.inj hf).symm⟩
      · rw [if_neg hty] at hf
        exact absurd hf (by simp)

/-- Witness for C10 (amended): on the concrete overriding run, the
screenshot file under `B` is accounted for by the containment
conjunct, and `B` is traced back to the explicit capture override; on
the concrete aborting run, the recovery attempt's persisted DOM
summary lives under `recovery` and is likewise accounted for. -/
theorem spec_c10_witness :
    ((⟨"B", "00_B_0.png", FC.png⟩ : FileRec)
        ∈ (runOneCheckpoint (constOracle pageC4) "task" none
            (Checkpoint.mk (some "A") (some [some aShotB])) w0).2.fs)
    ∧ ((⟨"B", "00_B_0.png", FC.png⟩ : FileRec) ∈ w0.fs
        ∨ (⟨"B", "00_B_0.png", FC.png⟩ : FileRec).dir
            = checkpointDirName (Checkpoint.mk (some "A") (some [some aShotB]))
        ∨ (⟨"B", "00_B_0.png", FC.png⟩ : FileRec).dir = "recovery"
        ∨ (⟨"B", "00_B_0.png", FC.png⟩ : FileRec).dir
            ∈ captureDirs
                (checkpointDirName (Checkpoint.mk (some "A") (some [some aShotB])))
                ((Checkpoint.mk (some "A") (some [some aShotB])).action_sequence.getD []))
    ∧ ((⟨"recovery", "dom-summary-5.json", FC.domSummary⟩ : FileRec)
        ∈ (runOneCheckpoint (constOracle pageC6) "task" none
            (Checkpoint.mk (some "cp") (some [some aC6])) w0).2.fs)
    ∧ ((⟨"recovery", "dom-summary-5.json", FC.domSummary⟩ : FileRec) ∈ w0.fs
        ∨ (⟨"recovery", "dom-summary-5.json", FC.domSummary⟩ : FileRec).dir
            = checkpointDirName (Checkpoint.mk (some "cp") (some [some aC6]))
        ∨ (⟨"recovery", "dom-summary-5.json", FC.domSummary⟩ : FileRec).dir
            = "recovery"
        ∨ (⟨"recovery", "dom-summary-5.json", FC.domSummary⟩ : FileRec).dir
            ∈ captureDirs
                (checkpointDirName (Checkpoint.mk (some "cp") (some [some aC6])))
                ((Checkpoint.mk (some "cp") (some [some aC6])).action_sequence.getD []))
    ∧ ("B" ∈ captureDirs "A_checkpoint" [some aShotB])
    ∧ (∃ a : PlanAction, some a ∈ [some aShotB] ∧ a.type = some "screenshot"
        ∧ "B" = (jsOrS a.checkpoint_name (some "A_checkpoint")).getD "A_checkpoint") :=
  ⟨by decide,
   spec_c10.2.2.1 (constOracle pageC4) "task" none
     (Checkpoint.mk (some "A") (some [some aShotB])) w0
     ⟨"B", "00_B_0.png", FC.png⟩ (by decide),
   by decide,
   spec_c10.2.2.1 (constOracle pageC6) "task" none
     (Checkpoint.mk (some "cp") (some [some aC6])) w0
     ⟨"recovery", "dom-summary-5.json", FC.domSummary⟩ (by decide),
   by decide,
   spec_c10.2.2.2 "A_checkpoint" "B" [some aShotB] (by decide)⟩

/-! ## Claim C3 -/

/-- C3 (Abort containment): (first conjunct) whenever a run of the
checkpoint list aborts (which happens exactly when an action fails and
its single recovery attempt produces no verified candidate, including
when the recovery request yields none), starting from a failure-free
output directory: the raised error is the abort message naming the
failing checkpoint's storage key and the failing action index, and the
final output directory holds exactly one failure document, which
records the task id, that checkpoint key, that action index, the full
action payload, the error text, the current URL and a timestamp;
(second conjunct) an aborting checkpoint prefix determines the whole
run — appending any later checkpoints changes neither the error nor the
final world, so no action of a later checkpoint is ever executed. -/
theorem spec_c3 :
    (∀ (o : Oracle) (tid : String) (conf : Option Nat) (cks : List Checkpoint)
        (w : World) (e : String),
      Fempty w →
      (runCheckpoints o tid conf cks w).1 = .error e →
      ∃ name2 ai2 a2 err2 u t,
        (∃ c ∈ cks, name2 = checkpointDirName c) ∧
        e = abortMsg name2 ai2 err2 ∧
        failureFiles (runCheckpoints o tid conf cks w).2
          = [⟨name2, "failure.json",
              .failure ⟨tid, name2, ai2, some a2, err2, u, t⟩⟩])
    ∧ (∀ (o : Oracle) (tid : String) (conf : Option Nat)
        (cks rest : List Checkpoint) (w : World) (e : String) (wA : World),
      runCheckpoints o tid conf cks w = (.error e, wA) →
      runCheckpoints o tid conf (cks ++ rest) w = (.error e, wA)) :=
  ⟨fun o tid conf cks w e hF h => rc_err_spec o tid conf cks w e hF h,
   fun o tid conf cks rest w e wA h => rc_append_error o tid conf cks rest w e wA h⟩

/-- The aborting checkpoint of the C6 scenario, reused as a concrete
aborting run. -/
def ckC6 : Checkpoint := Checkpoint.mk (some "cp") (some [some aC6])

/-- A later checkpoint that would capture a screenshot if it ran. -/
def ckX : Checkpoint := Checkpoint.mk (some "later") (some [some aShot])

/-- Witness for C3: the concrete aborting run raises the abort message
for `cp_checkpoint` at action index 0, persists exactly one failure
document, and appending a later checkpoint leaves the error and the
final world untouched. -/
theorem spec_c3_witness :
    ((runCheckpoints (constOracle pageC6) "task" none [ckC6] w0).1
        = .error (abortMsg "cp_checkpoint" 0 "fill: no fillable selector matched"))
    ∧ (∃ name2 ai2 a2 err2 u t,
        (∃ c ∈ [ckC6], name2 = checkpointDirName c) ∧
        abortMsg "cp_checkpoint" 0 "fill: no fillable selector matched"
          = abortMsg name2 ai2 err2 ∧
        failureFiles (runCheckpoints (constOracle pageC6) "task" none [ckC6] w0).2
          = [⟨name2, "failure.json",
              .failure ⟨"task", name2, ai2, some a2, err2, u, t⟩⟩])
    ∧ runCheckpoints (constOracle pageC6) "task" none ([ckC6] ++ [ckX]) w0
        = (.error (abortMsg "cp_checkpoint" 0 "fill: no fillable selector matched"),
           (runCheckpoints (constOracle pageC6) "task" none [ckC6] w0).2) :=
  ⟨rfl,
   spec_c3.1 (constOracle pageC6) "task" none [ckC6] w0
     (abortMsg "cp_checkpoint" 0 "fill: no fillable selector matched")
     (fun r hr => absurd hr (List.not_mem_nil r)) rfl,
   spec_c3.2 (constOracle pageC6) "task" none [ckC6] [ckX] w0
     (abortMsg "cp_checkpoint" 0 "fill: no fillable selector matched")
     (runCheckpoints (constOracle pageC6) "task" none [ckC6] w0).2 rfl⟩

/-! ## Claim C2 -/

/-- C2 (Recovery acceptance): (first conjunct) during recovery of a
click action with an expected dialog, a candidate whose click succeeds
but whose dialog does not appear is discarded and the trial moves to
the rest of the list; (second conjunct) the same for a fill action
whose fill succeeds but whose dialog does not appear; (third conjunct)
an accepted candidate always comes from the tried candidate list;
(fourth conjunct) when recovery succeeds the action loop resumes with
the remaining actions and the selector memory set to exactly the value
recovery returned; (fifth conjunct) a successful recovery always
carries an accepted candidate (`.ok` implies `some`). -/
theorem spec_c2 :
    (∀ (o : Oracle) (a : PlanAction) (d c : String) (rest : List String) (w : World),
      a.type = some "click" → dialogTruthy a = some d →
      (opClick o c w).1 = true →
      (opWaitSel o d (opClick o c w).2).1 = false →
      tryRecCands o a (c :: rest) w
        = tryRecCands o a rest (opWaitSel o d (opClick o c w).2).2)
    ∧ (∀ (o : Oracle) (a : PlanAction) (d c : String) (rest : List String) (w : World),
      a.type = some "fill" → dialogTruthy a = some d →
      (tryFillWithFallback o (a.text.getD "")
        (a.fallback_to_keyboard.getD false) [c] w).1 = true →
      (opWaitSel o d (tryFillWithFallback o (a.text.getD "")
        (a.fallback_to_keyboard.getD false) [c] w).2).1 = false →
      tryRecCands o a (c :: rest) w
        = tryRecCands o a rest (opWaitSel o d (tryFillWithFallback o (a.text.getD "")
            (a.fallback_to_keyboard.getD false) [c] w).2).2)
    ∧ (∀ (o : Oracle) (a : PlanAction) (l : List String) (w : World) (c : String),
      (tryRecCands o a l w).1 = some c → c ∈ l)
    ∧ (∀ (o : Oracle) (tid name : String) (conf : Option Nat) (a : PlanAction)
        (rest : List (Option PlanAction)) (prev : Option PlanAction) (ai : Nat)
        (last : Option String) (w : World) (err : String) (w1 : World)
        (lastR : Option String) (w2 : World),
      execAction o tid name conf a prev ai last w = (.error err, w1) →
      recoveryFlow o tid name a ai err w1 = (.ok lastR, w2) →
      runActions o tid name conf (some a :: rest) prev ai last w
        = runActions o tid name conf rest (some a) (ai + 1) lastR w2)
    ∧ (∀ (o : Oracle) (tid name : String) (a : PlanAction) (ai : Nat)
        (err : String) (w : World) (l : Option String),
      (recoveryFlow o tid name a ai err w).1 = .ok l → ∃ c, l = some c) := by
  refine ⟨?_, ?_, ?_, ?_, ?_⟩
  · intro o a d c rest w hty hd hc hw
    rw [tryRecCands, if_pos hty]
    dsimp only
    rw [if_neg (show ¬¬((opClick o c w).1 = true) by simp [hc])]
    rw [hd]
    dsimp only
    rw [if_neg (show ¬((opWaitSel o d (opClick o c w).2).1 = true) by simp [hw])]
  · intro o a d c rest w hty hd hc hw
    rw [tryRecCands, if_neg (show ¬(a.type = some "click") by rw [hty]; decide)]
    rw [if_pos hty]
    dsimp only
    rw [if_neg (show ¬¬((tryFillWithFallback o (a.text.getD "")
      (a.fallback_to_keyboard.getD false) [c] w).1 = true) by simp [hc])]
    rw [hd]
    dsimp only
    rw [if_neg (show ¬((opWaitSel o d (tryFillWithFallback o (a.text.getD "")
      (a.fallback_to_keyboard.getD false) [c] w).2).1 = true) by simp [hw])]
  · intro o a l w c
    induction l generalizing w with
    | nil =>
      intro h
      simp [tryRecCands] at h
    | cons x xs ih =>
      intro h
      rw [tryRecCands] at h
      by_cases h1 : a.type = some "click"
      · rw [if_pos h1] at h
        dsimp only at h
        by_cases h2 : ¬((opClick o x w).1 = true)
        · rw [if_pos h2] at h
          exact List.mem_cons_of_mem x (ih _ h)
        · rw [if_neg h2] at h
          cases hd : dialogTruthy a with
          | some d =>
            rw [hd] at h
            dsimp only at h
            by_cases h3 : (opWaitSel o d (opClick o x w).2).1 = true
            · rw [if_pos h3] at h
              dsimp only at h
              rw [Option.some.inj h]
              exact List.mem_cons_self c xs
            · rw [if_neg h3] at h
              exact List.mem_cons_of_mem x (ih _ h)
          | none =>
            rw [hd] at h
            dsimp only at h
            rw [Option.some.inj h]
            exact List.mem_cons_self c xs
      · rw [if_neg h1] at h
        by_cases h4 : a.type = some "fill"
        · rw [if_pos h4] at h
          dsimp only at h
          by_cases h2 : ¬((tryFillWithFallback o (a.text.getD "")
              (a.fallback_to_keyboard.getD false) [x] w).1 = true)
          · rw [if_pos h2] at h
            exact List.mem_cons_of_mem x (ih _ h)
          · rw [if_neg h2] at h
            cases hd : dialogTruthy a with
            | some d =>
              rw [hd] at h
              dsimp only at h
              by_cases h3 : (opWaitSel o d (tryFillWithFallback o (a.text.getD "")
                  (a.fallback_to_keyboard.getD false) [x] w).2).1 = true
              · rw [if_pos h3] at h
                dsimp only at h
                rw [Option.some.inj h]
                exact List.mem_cons_self c xs
              · rw [if_neg h3] at h
                exact List.mem_cons_of_mem x (ih _ h)
            | none =>
              rw [hd] at h
              dsimp only at h
              rw [Option.some.inj h]
              exact List.mem_cons_self c xs
        · rw [if_neg h4] at h
          by_cases h5 : a.type = some "waitForSelector"
          · rw [if_pos h5] at h
            dsimp only at h
            by_cases h2 : (opWaitSel o x w).1 = true
            · rw [if_pos h2] at h
              dsimp only at h
              rw [Option.some.inj h]
              exact List.mem_cons_self c xs
            · rw [if_neg h2] at h
              exact List.mem_cons_of_mem x (ih _ h)
          · rw [if_neg h5] at h
            dsimp only at h
            by_cases h2 : (opClick o x w).1 = true
            · rw [if_pos h2] at h
              dsimp only at h
              rw [Option.some.inj h]
              exact List.mem_cons_self c xs
            · rw [if_neg h2] at h
              exact List.mem_cons_of_mem x (ih _ h)
  · intro o tid name conf a rest prev ai last w err w1 lastR w2 hea hrf
    rw [runActions, hea]
    dsimp only
    rw [hrf]
  · intro o tid name a ai err w l h
    obtain ⟨wMid, _, ⟨c, heq⟩ | heq⟩ := rf_shape o tid name a ai err w
    · rw [heq] at h
      exact ⟨c, (Except.ok.inj h).symm⟩
    · rw [heq] at h
      exact absurd h (by simp)

/-- Click action expecting the dialog `#dlg` (recovery trials). -/
def aC2 : PlanAction := { type := some "click", expected_dialog := some "#dlg" }

/-- Fill action expecting the dialog `#dlg` (recovery trials). -/
def aC2f : PlanAction :=
  { type := some "fill", text := some "v", expected_dialog := some "#dlg" }

/-- Click action whose declared candidate never matches, so that the
direct attempt fails and recovery runs. -/
def aC2r : PlanAction :=
  { type := some "click", selector := some ["#missing"], expected_dialog := some "#dlg" }

/-- Page for the recovery scenario: `#c1` and `#c2` are clickable and
fillable buttons, every click/fill side effect succeeds, but the dialog
only starts appearing at tick 3 — so an early trial's dialog check
fails while a later one succeeds; the planner offers `#c1, #c2`. -/
def oC2 : Oracle where
  count := fun _ s => if s = "#c1" ∨ s = "#c2" then 1 else 0
  visible := fun _ s => decide (s = "#c1") || decide (s = "#c2")
  box := fun _ _ => true
  enabled := fun _ _ => true
  evalOk := fun _ _ => true
  tag := fun _ _ => "button"
  role := fun _ _ => ""
  hasOnClick := fun _ _ => false
  hasTabIndex := fun _ _ => false
  contentEditable := fun _ _ => false
  clickOk := fun _ _ => true
  fillOk := fun _ _ => true
  focusOk := fun _ _ => true
  typeOk := fun _ => false
  waitSel := fun t _ => decide (3 ≤ t)
  gotoOk := fun _ _ => false
  shotOk := fun _ => true
  url := fun _ => "https://example.test"
  planner := fun _ => some (J.obj [("selector", J.arr [J.str "#c1", J.str "#c2"])])

/-- World after the failing direct click of the recovery scenario. -/
def w1C2 : World := (execAction oC2 "task" "cp_checkpoint" none aC2r none 0 none w0).2

/-- Witness for C2: on the concrete scenario, the first click trial
(whose click succeeds at tick 0 but whose dialog check at tick 1 fails)
is discarded; the same for a fill trial; the trials then accept `#c2`,
which is a member of the tried list; and the concrete failing click
recovers to `#c1`, with the action loop resuming on the rest of the
actions with memory `#c1`. -/
theorem spec_c2_witness :
    (tryRecCands oC2 aC2 ["#c1", "#c2"] w0
      = tryRecCands oC2 aC2 ["#c2"] (opWaitSel oC2 "#dlg" (opClick oC2 "#c1" w0).2).2)
    ∧ (tryRecCands oC2 aC2f ["#c1", "#c2"] w0
      = tryRecCands oC2 aC2f ["#c2"]
          (opWaitSel oC2 "#dlg" (tryFillWithFallback oC2 (aC2f.text.getD "")
            (aC2f.fallback_to_keyboard.getD false) ["#c1"] w0).2).2)
    ∧ (tryRecCands oC2 aC2 ["#c1", "#c2"] w0).1 = some "#c2"
    ∧ "#c2" ∈ ["#c1", "#c2"]
    ∧ (runActions oC2 "task" "cp_checkpoint" none [some aC2r] none 0 none w0
      = runActions oC2 "task" "cp_checkpoint" none [] (some aC2r) 1 (some "#c1")
          (recoveryFlow oC2 "task" "cp_checkpoint" aC2r 0
            "click: no clickable selector matched" w1C2).2)
    ∧ (∃ c, (some "#c1" : Option String) = some c) :=
  ⟨spec_c2.1 oC2 aC2 "#dlg" "#c1" ["#c2"] w0 rfl rfl (by decide) (by decide),
   spec_c2.2.1 oC2 aC2f "#dlg" "#c1" ["#c2"] w0 rfl rfl (by decide) (by decide),
   rfl,
   spec_c2.2.2.1 oC2 aC2 ["#c1", "#c2"] w0 "#c2" rfl,
   spec_c2.2.2.2.1 oC2 "task" "cp_checkpoint" none aC2r [] none 0 none w0
     "click: no clickable selector matched" w1C2 (some "#c1")
     (recoveryFlow oC2 "task" "cp_checkpoint" aC2r 0
       "click: no clickable selector matched" w1C2).2 rfl rfl,
   spec_c2.2.2.2.2 oC2 "task" "cp_checkpoint" aC2r 0
     "click: no clickable selector matched" w1C2 (some "#c1") rfl⟩
